import Mathlib

/-!
Shallow embedding of the pipeline coordinator `VideoProcessor` from
`Backend/routes/video_processor.js` (the version with status events,
`skipRefinement`, batch-size capping and H.264 re-encoding).

Modelling conventions:
* External processes and external API calls are resolved by an oracle
  (`World`) fixed for one run: each field records how the corresponding
  external interaction behaves (exit code, stdout lines, stderr, whether
  an expected output file was produced, ...).
* JavaScript exceptions are modelled by `Except JsError`; a function that
  cannot throw returns a plain value.
* The filesystem is a list of existing paths; the unlink/rename swap done
  after a successful transcode is additionally recorded as a trace of
  `FsOp`s.  Spawned processes are recorded as `SpawnRec`s.
* `console.log` output, timestamps and the venv-vs-system python selection
  (which only changes the interpreter path) are not modelled; the
  interpreter command is the constant `pythonCmd`.
* JS objects that can lack a field are modelled with `Option`; in
  `PipelineResult`, `annotatedVideoPath : Option (Option String)` where
  `none` means the field is absent and `some none` means it is `null`.
-/

namespace VideoProc

/-- A JavaScript `Error`: message plus captured stack string. -/
structure JsError where
  message : String
  stack : String
deriving Repr, DecidableEq

/-- Errors constructed by the coordinator itself (`new Error(msg)`). -/
def mkError (msg : String) : JsError :=
  { message := msg, stack := "Error: " ++ msg }

/-- The detail fields of a status object that the claims refer to
(`details` is an open bag in JS; unused fields stay `none`). -/
structure EventDetails where
  action : Option String := none
  model : Option String := none
  error : Option String := none
  stack : Option String := none
  refinedPrompt : Option String := none
  frameIdx : Option Nat := none
  totalFrames : Option Nat := none
  percentage : Option Nat := none
deriving Repr, DecidableEq

/-- A `StatusEvent` as built by `updateStatus` (timestamp not modelled). -/
structure StatusEvent where
  status : String
  stage : Int
  details : EventDetails
deriving Repr, DecidableEq

/-- `manifest.json` content (only the field the coordinator reads). -/
structure Manifest where
  saved_count : Nat
deriving Repr, DecidableEq

/-- One entry of `detections.frame_detections`. -/
structure FrameDetection where
  people_detected : Nat
deriving Repr, DecidableEq

/-- `detections.json` content (only the field the coordinator reads). -/
structure Detections where
  frame_detections : List FrameDetection
deriving Repr, DecidableEq

/-- The `this.models` record of the coordinator. -/
structure Models where
  promptRefinement : String
  frameAnalysis : String
deriving Repr, DecidableEq

def modelsConst : Models :=
  { promptRefinement := "gemini-2.0-flash"
    frameAnalysis := "Qwen/Qwen2.5-VL-7B-Instruct" }

/-- `result.processingStages` (source field names `videoAnnotation` and
`cleanup` are rendered as `videoAnnotationMark` / `cleanupMark`). -/
structure ProcessingStages where
  refinement : String
  frameExtraction : String
  frameAnalysis : String
  videoAnnotationMark : String
  cleanupMark : String
deriving Repr, DecidableEq

/-- The object returned by `processVideo`. -/
structure PipelineResult where
  success : Bool
  annotatedVideoPath : Option (Option String) := none
  detectionsPath : Option String := none
  detections : Option Detections := none
  videoInfo : Option Manifest := none
  originalTask : Option String := none
  refinedTask : Option String := none
  models : Models := modelsConst
  processingStages : Option ProcessingStages := none
  error : Option String := none
  stack : Option String := none
deriving Repr, DecidableEq

/-- A recorded child-process spawn: command plus argument vector. -/
structure SpawnRec where
  cmd : String
  args : List String
deriving Repr, DecidableEq

/-- Unlink/rename operations performed by the post-transcode swap. -/
inductive FsOp where
  | unlink (p : String)
  | rename (src dst : String)
deriving Repr, DecidableEq

/-- Observable run state threaded through the coordinator. -/
structure PState where
  events : List StatusEvent := []
  fs : List String := []
  spawns : List SpawnRec := []
  fsOps : List FsOp := []
  refineCalls : Nat := 0
deriving Repr, DecidableEq

/-- The injected status callback; it may throw. -/
abbrev Callback := StatusEvent → Except JsError Unit

/-- Outcome of running one python script via `spawn`. -/
inductive ProcRun where
  | spawnErr (enoent : Bool) (msg : String)
  | exit (code : Nat) (stdoutLines : List String) (stderr : String)

/-- One stderr line of the annotator: either it matches the progress
pattern (with the three captured numbers) or it is free text. -/
inductive AnnLine where
  | progress (percentage frameIdx totalFrames : Nat)
  | other (text : String)

/-- The text of an annotator stderr line as it was captured. -/
def AnnLine.render : AnnLine → String
  | .progress pct i total =>
      "Progress: " ++ toString pct ++ "% (" ++ toString i ++ "/" ++
        toString total ++ " frames)"
  | .other s => s

/-- The stderr string accumulated from the annotator process. -/
def annStderr (ls : List AnnLine) : String :=
  String.intercalate "\n" (ls.map AnnLine.render)

/-- Outcome of running the annotator process. -/
inductive AnnRun where
  | spawnErr (enoent : Bool) (msg : String)
  | exit (code : Nat) (stdoutLines : List String) (stderrLines : List AnnLine)

/-- Outcome of running ffmpeg: spawn failure, or an exit code together
with whether the temp output file was produced. -/
inductive FfmpegRun where
  | spawnErr (enoent : Bool) (msg : String)
  | exit (code : Nat) (tempCreated : Bool)

/-- The oracle fixing all external behaviour of one run. -/
structure World where
  sessionId : String
  refineOutcome : Except JsError String
  extractRun : ProcRun
  manifestOnDisk : Option Manifest
  analyzeRun : ProcRun
  detectionsOnDisk : Option Detections
  annotateRun : AnnRun
  annotatedExists : Bool
  ffmpegRun : FfmpegRun

/-- Constructor options of `VideoProcessor` (with the source defaults). -/
structure Config where
  workDir : String := "./work"
  frameInterval : Nat := 1
  batchSize : Nat := 4
  maxFrames : Nat := 8
  keepIntermediateFiles : Bool := false
  skipAnnotationFlag : Bool := false
deriving Repr, DecidableEq

def pythonCmd : String := "python3"
def extractorScript : String := "Backend/routes/src/video_extractor.py"
def analyzerScript : String := "Backend/routes/src/frame_analyzer.py"
def annotatorScript : String := "Backend/routes/src/video_annotator.py"
def ffmpegCmd : String := "ffmpeg"

/-- Idempotent path creation in the filesystem model. -/
def insertPath (p : String) (fs : List String) : List String :=
  if p ∈ fs then fs else fs ++ [p]

/-! String utilities.  The Lean core versions (`String.trim`,
`String.endsWith`, `String.splitOn`, ...) are implemented on byte
positions and do not reduce inside the kernel, so the JS string
operations are modelled structurally over the character list instead. -/

/-- `str.trim()`. -/
def jsTrim (s : String) : String :=
  ⟨((s.data.dropWhile Char.isWhitespace).reverse.dropWhile Char.isWhitespace).reverse⟩

/-- Does `s` end with `suffix`? -/
def jsEndsWith (s suffix : String) : Bool := suffix.data.isSuffixOf s.data

/-- Drop the last `n` characters. -/
def jsDropRight (s : String) (n : Nat) : String := ⟨s.data.take (s.data.length - n)⟩

/-- Split a character list on a separator character. -/
def splitOnChar (c : Char) : List Char → List (List Char)
  | [] => [[]]
  | x :: xs =>
    match splitOnChar c xs with
    | [] => if x = c then [[], [x]] else [[x]]
    | y :: ys => if x = c then [] :: (y :: ys) else (x :: y) :: ys

/-- `updateStatus`: build the status object, record it, invoke the callback
inside try/catch (a throwing callback is caught; only a console line, which
is not modelled, distinguishes the two branches). -/
def updateStatus (cb : Callback) (s : PState) (status : String) (stage : Int)
    (details : EventDetails) : PState :=
  match cb { status := status, stage := stage, details := details } with
  | .ok _ =>
      { s with events := s.events ++ [{ status := status, stage := stage, details := details }] }
  | .error _ =>
      { s with events := s.events ++ [{ status := status, stage := stage, details := details }] }

/-- `refineTaskDescription`: ask the refinement model, trim and return its
answer; on any throw fall back to the original instruction. -/
def refineTaskDescription (w : World) (cb : Callback) (s : PState)
    (userInstruction : String) : String × PState :=
  let s := updateStatus cb s "refining_prompt" 0
    { action := some "Refining prompt with Gemini"
      model := some modelsConst.promptRefinement }
  let s := { s with refineCalls := s.refineCalls + 1 }
  match w.refineOutcome with
  | .ok txt =>
      let refinedPrompt := jsTrim txt
      let s := updateStatus cb s "refining_prompt" 0
        { action := some "Prompt refinement completed"
          model := some modelsConst.promptRefinement
          refinedPrompt := some refinedPrompt }
      (refinedPrompt, s)
  | .error e =>
      let s := updateStatus cb s "refining_prompt" 0
        { action := some "Prompt refinement failed, using original"
          model := some modelsConst.promptRefinement
          error := some e.message }
      (userInstruction, s)

/-- `runPythonScript`: spawn the interpreter on a script; reject on spawn
error or non-zero exit (message carries the captured stderr), otherwise
resolve with stdout lines and stderr. -/
def runPythonScript (run : ProcRun) (s : PState) (scriptPath : String)
    (args : List String) : Except JsError (List String × String) × PState :=
  let s := { s with spawns := s.spawns ++ [{ cmd := pythonCmd, args := scriptPath :: args }] }
  match run with
  | .spawnErr true emsg =>
      (.error (mkError ("Python not found. Please ensure Python is installed and available in PATH. Tried command: "
        ++ pythonCmd ++ ". Original error: " ++ emsg)), s)
  | .spawnErr false emsg => (.error (mkError emsg), s)
  | .exit code stdoutLines stderr =>
      if code ≠ 0 then
        (.error (mkError ("Python script failed with code " ++ toString code
          ++ "\nCommand: " ++ pythonCmd ++ "\nScript: " ++ scriptPath
          ++ "\n" ++ stderr)), s)
      else
        (.ok (stdoutLines, stderr), s)

/-- The frame extraction output bundle. -/
structure ExtractOut where
  manifestPath : String
  framesDir : String
  manifest : Manifest
deriving Repr, DecidableEq

/-- `extractFrames` (stage 1): run the extractor into a session directory
and require `manifest.json` to exist afterwards. -/
def extractFrames (w : World) (cfg : Config) (cb : Callback) (s : PState)
    (videoPath : String) : Except JsError ExtractOut × PState :=
  let s := updateStatus cb s "extracting_frames" 1
    { action := some "Starting frame extraction" }
  let framesDir := cfg.workDir ++ "/frames_" ++ w.sessionId
  let s := { s with fs := insertPath cfg.workDir s.fs }
  let args := [videoPath, framesDir, toString cfg.frameInterval]
    ++ (if cfg.maxFrames ≠ 0 then [toString cfg.maxFrames] else [])
  let (r, s) := runPythonScript w.extractRun s extractorScript args
  -- the external extractor creates the session directory when it runs
  let s := match w.extractRun with
    | .exit _ _ _ => { s with fs := insertPath framesDir s.fs }
    | _ => s
  match r with
  | .error e => (.error e, s)
  | .ok _ =>
    let manifestPath := framesDir ++ "/manifest.json"
    match w.manifestOnDisk with
    | none =>
        let s := updateStatus cb s "extracting_frames" 1
          { action := some "Frame extraction failed"
            error := some "manifest.json not found" }
        (.error (mkError "Frame extraction failed: manifest.json not found"), s)
    | some manifest =>
        let s := { s with fs := insertPath manifestPath s.fs }
        let s := updateStatus cb s "extracting_frames" 1
          { action := some "Frame extraction completed" }
        (.ok { manifestPath := manifestPath, framesDir := framesDir, manifest := manifest }, s)

/-- The frame analysis output bundle. -/
structure AnalyzeOut where
  detectionsPath : String
  detections : Detections
deriving Repr, DecidableEq

/-- `analyzeFrames` (stage 2): cap the batch size at 2, run the analyzer,
take the last stdout line as the detections path and require that file to
exist. -/
def analyzeFrames (w : World) (cfg : Config) (cb : Callback) (s : PState)
    (manifestPath taskDescription : String) : Except JsError AnalyzeOut × PState :=
  let s := updateStatus cb s "analyzing_frames" 2
    { action := some "Starting frame analysis"
      model := some modelsConst.frameAnalysis }
  let safeBatchSize := min cfg.batchSize 2
  let args := [manifestPath, taskDescription, toString safeBatchSize]
  let (r, s) := runPythonScript w.analyzeRun s analyzerScript args
  match r with
  | .error e => (.error e, s)
  | .ok (stdoutLines, _stderr) =>
    let detectionsPath := stdoutLines.getLastD ""
    match w.detectionsOnDisk with
    | none =>
        let s := updateStatus cb s "analyzing_frames" 2
          { action := some "Frame analysis failed"
            model := some modelsConst.frameAnalysis
            error := some "detections.json not found" }
        (.error (mkError "Frame analysis failed: detections.json not found"), s)
    | some detections =>
        let s := { s with fs := insertPath detectionsPath s.fs }
        let s := updateStatus cb s "analyzing_frames" 2
          { action := some "Frame analysis completed"
            model := some modelsConst.frameAnalysis }
        (.ok { detectionsPath := detectionsPath, detections := detections }, s)

/-- `inputPath.replace(re-mp4-suffix, "_h264_temp.mp4")`. -/
def tempPathOf (inputPath : String) : String :=
  if jsEndsWith inputPath ".mp4" then jsDropRight inputPath 4 ++ "_h264_temp.mp4"
  else inputPath

/-- `path.basename(p, path.extname(p))`. -/
def basenameNoExt (p : String) : String :=
  let base := (splitOnChar '/' p.data).getLastD p.data
  let parts := splitOnChar '.' base
  if parts.length ≤ 1 then ⟨base⟩
  else ⟨List.intercalate ['.'] parts.dropLast⟩

/-- `reencodeToH264`: spawn ffmpeg toward the temp path; resolve with the
temp path on exit 0 when the temp file exists, reject otherwise. -/
def reencodeToH264 (w : World) (s : PState) (inputPath : String) :
    Except JsError String × PState :=
  let tempPath := tempPathOf inputPath
  let args := ["-i", inputPath, "-c:v", "libx264", "-preset", "medium",
    "-crf", "23", "-c:a", "aac", "-movflags", "+faststart", "-y", tempPath]
  let s := { s with spawns := s.spawns ++ [{ cmd := ffmpegCmd, args := args }] }
  match w.ffmpegRun with
  | .spawnErr true _ =>
      (.error (mkError "ffmpeg not found. Install ffmpeg for browser-compatible video encoding."), s)
  | .spawnErr false emsg => (.error (mkError emsg), s)
  | .exit code tempCreated =>
      if code = 0 ∧ tempCreated then
        let s := { s with fs := insertPath tempPath s.fs }
        (.ok tempPath, s)
      else
        (.error (mkError ("ffmpeg re-encoding failed with code " ++ toString code)), s)

/-- The progress detail object passed to `updateStatus` on a tick. -/
def tickDetails (pct i total : Nat) : EventDetails :=
  { action := some "Annotating video frames"
    frameIdx := some i, totalFrames := some total, percentage := some pct }

/-- Emit one progress status event per stderr line matching the progress
pattern, in stream order (non-matching lines are only logged). -/
def emitTicks (cb : Callback) (s : PState) (ls : List AnnLine) : PState :=
  ls.foldl (fun st l =>
    match l with
    | .progress pct i total =>
        updateStatus cb st "annotating_video" 3 (tickDetails pct i total)
    | .other _ => st) s

/-- `annotateVideo` (stage 3): spawn the annotator, stream progress ticks,
take the last stdout line as the annotated path, require the file to
exist, then best-effort re-encode with an unlink/rename swap on success. -/
def annotateVideo (w : World) (cfg : Config) (cb : Callback) (s : PState)
    (videoPath detectionsPath : String) (outputPath : Option String) :
    Except JsError String × PState :=
  let s := updateStatus cb s "annotating_video" 3
    { action := some "Starting video annotation" }
  let outPath := match outputPath with
    | some p => p
    | none => cfg.workDir ++ "/" ++ basenameNoExt videoPath ++ "_annotated.mp4"
  let args := [videoPath, detectionsPath, outPath]
  let s := { s with spawns := s.spawns ++ [{ cmd := pythonCmd, args := annotatorScript :: args }] }
  match w.annotateRun with
  | .spawnErr true _ =>
      (.error (mkError ("Python not found. Tried: " ++ pythonCmd)), s)
  | .spawnErr false emsg => (.error (mkError emsg), s)
  | .exit code stdoutLines stderrLines =>
    -- progress ticks are delivered while the process runs
    let s := emitTicks cb s stderrLines
    if code ≠ 0 then
      (.error (mkError ("Annotation failed with code " ++ toString code
        ++ "\n" ++ annStderr stderrLines)), s)
    else
      let annotatedVideoPath := stdoutLines.getLastD ""
      if w.annotatedExists then
        let s := { s with fs := insertPath annotatedVideoPath s.fs }
        match reencodeToH264 w s annotatedVideoPath with
        | (.ok reencodedPath, s) =>
            if reencodedPath ≠ "" ∧ reencodedPath ∈ s.fs then
              let s := { s with fs := s.fs.erase annotatedVideoPath
                                fsOps := s.fsOps ++ [FsOp.unlink annotatedVideoPath] }
              let s := { s with fs := insertPath annotatedVideoPath (s.fs.erase reencodedPath)
                                fsOps := s.fsOps ++ [FsOp.rename reencodedPath annotatedVideoPath] }
              let s := updateStatus cb s "annotating_video" 3
                { action := some "Video annotation completed" }
              (.ok annotatedVideoPath, s)
            else
              let s := updateStatus cb s "annotating_video" 3
                { action := some "Video annotation completed" }
              (.ok annotatedVideoPath, s)
        | (.error _, s) =>
            -- transcode failure is caught: warn only, keep prior artifact
            let s := updateStatus cb s "annotating_video" 3
              { action := some "Video annotation completed" }
            (.ok annotatedVideoPath, s)
      else
        let s := updateStatus cb s "annotating_video" 3
          { action := some "Video annotation failed"
            error := some "output video not found" }
        (.error (mkError "Video annotation failed: output video not found"), s)

/-- `cleanup`: remove the session frames directory (recursively, i.e. the
directory and every path under it) unless intermediate files are kept. -/
def cleanup (cfg : Config) (s : PState) (framesDir : String) : PState :=
  if cfg.keepIntermediateFiles = false ∧ framesDir ∈ s.fs then
    { s with fs := s.fs.filter (fun p => !(framesDir.data.isPrefixOf p.data)) }
  else s

/-- The failure result object built by the catch block of `processVideo`:
`success:false`, the error message and the models — and nothing else (in
particular no `stack` and no `annotatedVideoPath` field). -/
def failResultOf (e : JsError) : PipelineResult :=
  { success := false, error := some e.message, models := modelsConst }

/-- The single `failed` event emitted by the catch block. -/
def failedEventOf (e : JsError) : StatusEvent :=
  { status := "failed", stage := -1
    details := { action := some "Video processing failed"
                 error := some e.message, stack := some e.stack } }

/-- The catch block of `processVideo`: emit the single failed event and
return the failure result. -/
def failedResult (cb : Callback) (s : PState) (e : JsError) :
    PipelineResult × PState :=
  let s := updateStatus cb s "failed" (-1)
    { action := some "Video processing failed"
      error := some e.message, stack := some e.stack }
  (failResultOf e, s)

/-- The success result object built at the end of the try block. -/
def successResult (cfg : Config) (taskDescription refinedTask : String)
    (ana : AnalyzeOut) (man : Manifest) (skipRefinement : Bool)
    (annPath : Option String) : PipelineResult :=
  { success := true
    annotatedVideoPath := some annPath
    detectionsPath := some ana.detectionsPath
    detections := some ana.detections
    videoInfo := some man
    originalTask := some taskDescription
    refinedTask := some refinedTask
    models := modelsConst
    processingStages := some
      { refinement := if skipRefinement then "skipped" else "completed"
        frameExtraction := "completed"
        frameAnalysis := "completed"
        videoAnnotationMark := if cfg.skipAnnotationFlag then "skipped" else "completed"
        cleanupMark := "completed" }
    error := none, stack := none }

/-- Steps 3-5 of the try block of `processVideo` (annotation or skip,
cleanup, result construction, completion event), from the state reached
after a successful analysis. -/
def afterAnalysis (w : World) (cfg : Config) (cb : Callback)
    (videoPath taskDescription refinedTask : String) (outputPath : Option String)
    (skipRefinement : Bool) (ext : ExtractOut) (ana : AnalyzeOut) (s : PState) :
    PipelineResult × PState :=
  let step3 : Except JsError (Option String) × PState :=
    if cfg.skipAnnotationFlag = false then
      match annotateVideo w cfg cb s videoPath ana.detectionsPath outputPath with
      | (.ok p, s) => (.ok (some p), s)
      | (.error e, s) => (.error e, s)
    else
      let s := updateStatus cb s "annotating_video" 3
        { action := some "Video annotation skipped" }
      (.ok none, s)
  match step3 with
  | (.error e, s) => failedResult cb s e
  | (.ok annotatedVideoPath, s) =>
    let s := updateStatus cb s "cleaning_up" 4
      { action := some "Cleaning up intermediate files" }
    let s := cleanup cfg s ext.framesDir
    let result := successResult cfg taskDescription refinedTask ana ext.manifest
      skipRefinement annotatedVideoPath
    let s := updateStatus cb s "completed" 5
      { action := some "Video processing completed successfully" }
    (result, s)

/-- Step 2 onwards of the try block, from the state reached after a
successful extraction. -/
def afterExtract (w : World) (cfg : Config) (cb : Callback)
    (videoPath taskDescription refinedTask : String) (outputPath : Option String)
    (skipRefinement : Bool) (ext : ExtractOut) (s : PState) :
    PipelineResult × PState :=
  match analyzeFrames w cfg cb s ext.manifestPath refinedTask with
  | (.error e, s) => failedResult cb s e
  | (.ok ana, s) =>
      afterAnalysis w cfg cb videoPath taskDescription refinedTask outputPath
        skipRefinement ext ana s

/-- Step 1 onwards of the try block, from the state reached after the
refinement step. -/
def runFromExtract (w : World) (cfg : Config) (cb : Callback)
    (videoPath taskDescription refinedTask : String) (outputPath : Option String)
    (skipRefinement : Bool) (s : PState) : PipelineResult × PState :=
  match extractFrames w cfg cb s videoPath with
  | (.error e, s) => failedResult cb s e
  | (.ok ext, s) =>
      afterExtract w cfg cb videoPath taskDescription refinedTask outputPath
        skipRefinement ext s

/-- The try block of `processVideo` (refinement step then the rest), from
a given entry state. -/
def runPipeline (w : World) (cfg : Config) (cb : Callback)
    (videoPath taskDescription : String) (outputPath : Option String)
    (skipRefinement : Bool) (s : PState) : PipelineResult × PState :=
  let (refinedTask, s) :=
    if skipRefinement then (taskDescription, s)
    else refineTaskDescription w cb s taskDescription
  runFromExtract w cfg cb videoPath taskDescription refinedTask outputPath
    skipRefinement s

/-- `processVideo`: the full coordinator.  The try block is the sequence
refinement / extraction / analysis / annotation / cleanup, the catch block
is `failedResult`; the helpers above name its sequential suffixes. -/
def processVideo (w : World) (cfg : Config) (cb : Callback)
    (videoPath taskDescription : String) (outputPath : Option String)
    (skipRefinement : Bool) : PipelineResult × PState :=
  let s : PState := {}
  let s := updateStatus cb s "initializing" 0
    { action := some "Initializing video processing pipeline" }
  runPipeline w cfg cb videoPath taskDescription outputPath skipRefinement s

/-- The always-succeeding callback. -/
def cbOk : Callback := fun _ => .ok ()

/-- The stage indices carried by the emitted events, in order. -/
def stagesOf (s : PState) : List Int := s.events.map (·.stage)

/-- The events whose status is `failed`. -/
def failedEvents (s : PState) : List StatusEvent :=
  s.events.filter (fun ev => ev.status = "failed")

/-! ## Basic lemmas about the building blocks -/

/-- `updateStatus` appends exactly one event and touches nothing else,
whatever the callback does with the event. -/
theorem updateStatus_eq (cb : Callback) (s : PState) (st : String)
    (stg : Int) (d : EventDetails) :
    updateStatus cb s st stg d =
      { s with events := s.events ++ [{ status := st, stage := stg, details := d }] } := by
  unfold updateStatus
  cases cb { status := st, stage := stg, details := d } <;> rfl

theorem self_mem_insertPath (p : String) (fs : List String) :
    p ∈ insertPath p fs := by
  unfold insertPath; split <;> simp_all

theorem mem_insertPath (q p : String) (fs : List String) (h : q ∈ fs) :
    q ∈ insertPath p fs := by
  unfold insertPath; split <;> simp_all

/-- The status events produced by the progress lines of the annotator. -/
def ticksOf (ls : List AnnLine) : List StatusEvent :=
  ls.filterMap fun l =>
    match l with
    | .progress pct i total =>
        some { status := "annotating_video", stage := 3, details := tickDetails pct i total }
    | .other _ => none

theorem emitTicks_eq (cb : Callback) (ls : List AnnLine) :
    ∀ s : PState, emitTicks cb s ls = { s with events := s.events ++ ticksOf ls } := by
  induction ls with
  | nil => intro s; simp [emitTicks, ticksOf]
  | cons l t ih =>
    intro s
    cases l with
    | progress pct i total =>
      have h1 : emitTicks cb s (AnnLine.progress pct i total :: t) =
          emitTicks cb (updateStatus cb s "annotating_video" 3 (tickDetails pct i total)) t := rfl
      rw [h1, ih, updateStatus_eq]
      simp [ticksOf]
    | other txt =>
      have h1 : emitTicks cb s (AnnLine.other txt :: t) = emitTicks cb s t := rfl
      rw [h1, ih]
      simp [ticksOf]

theorem ticksOf_mem (ls : List AnnLine) :
    ∀ ev ∈ ticksOf ls, ev.status = "annotating_video" ∧ ev.stage = 3 := by
  intro ev h
  unfold ticksOf at h
  rcases List.mem_filterMap.mp h with ⟨l, _, hl⟩
  cases l with
  | progress pct i total =>
    simp only [Option.some.injEq] at hl
    subst hl
    exact ⟨rfl, rfl⟩
  | other txt => simp at hl

/-! ## Per-stage characterisations

Each lemma describes how one stage wrapper transforms the run state: which
status events it appends, which processes it spawns, and how it treats the
other state components, for every possible oracle behaviour. -/

/-- `refineTaskDescription` never throws; it appends two stage-0 events and
one provider call, and touches nothing else. -/
theorem refine_spec (w : World) (cb : Callback) (s : PState) (u : String) :
    ∃ E, (refineTaskDescription w cb s u).2 =
        { s with events := s.events ++ E, refineCalls := s.refineCalls + 1 }
      ∧ E.map (·.stage) = [0, 0]
      ∧ (∀ ev ∈ E, ev.status = "refining_prompt") := by
  cases h : w.refineOutcome with
  | ok txt =>
    simp only [refineTaskDescription, h, updateStatus_eq, List.append_assoc]
    exact ⟨_, rfl, by simp, by simp⟩
  | error e =>
    simp only [refineTaskDescription, h, updateStatus_eq, List.append_assoc]
    exact ⟨_, rfl, by simp, by simp⟩

/-- `extractFrames` appends only stage-1 `extracting_frames` events (two of
them when it succeeds), spawns exactly the extractor script, leaves the
refinement counter and the fs-op trace alone, only grows the filesystem,
and on success returns the session frames directory, which then exists. -/
theorem extract_spec (w : World) (cfg : Config) (cb : Callback) (s : PState)
    (v : String) :
    ∃ E,
      (extractFrames w cfg cb s v).2.events = s.events ++ E
      ∧ (∀ ev ∈ E, ev.status = "extracting_frames" ∧ ev.stage = 1)
      ∧ (∀ o, (extractFrames w cfg cb s v).1 = Except.ok o → E.map (·.stage) = [1, 1])
      ∧ (∃ a, (extractFrames w cfg cb s v).2.spawns
            = s.spawns ++ [{ cmd := pythonCmd, args := extractorScript :: a }])
      ∧ (extractFrames w cfg cb s v).2.refineCalls = s.refineCalls
      ∧ (extractFrames w cfg cb s v).2.fsOps = s.fsOps
      ∧ (∀ p ∈ s.fs, p ∈ (extractFrames w cfg cb s v).2.fs)
      ∧ (∀ o, (extractFrames w cfg cb s v).1 = Except.ok o →
          o.framesDir = cfg.workDir ++ "/frames_" ++ w.sessionId
          ∧ o.framesDir ∈ (extractFrames w cfg cb s v).2.fs) := by
  cases hr : w.extractRun with
  | spawnErr enoent msg =>
    cases enoent <;>
    · simp only [extractFrames, runPythonScript, hr, updateStatus_eq, List.append_assoc]
      exact ⟨_, rfl, by simp, by simp, ⟨_, rfl⟩, by trivial, by trivial,
        fun p hp => mem_insertPath _ _ _ hp, by simp⟩
  | exit code lines errtxt =>
    by_cases hc : code = 0
    · subst hc
      cases hm : w.manifestOnDisk with
      | none =>
        simp only [extractFrames, runPythonScript, hr, hm, updateStatus_eq,
          List.append_assoc, ne_eq, not_true_eq_false, if_false, reduceIte]
        exact ⟨_, rfl, by simp, by simp, ⟨_, rfl⟩, by trivial, by trivial,
          fun p hp => mem_insertPath _ _ _ (mem_insertPath _ _ _ hp), by simp⟩
      | some m =>
        simp only [extractFrames, runPythonScript, hr, hm, updateStatus_eq,
          List.append_assoc, ne_eq, not_true_eq_false, if_false, reduceIte]
        refine ⟨_, rfl, by simp, by simp, ⟨_, rfl⟩, by trivial, by trivial,
          fun p hp => mem_insertPath _ _ _ (mem_insertPath _ _ _ (mem_insertPath _ _ _ hp)), ?_⟩
        intro o ho
        simp only [Except.ok.injEq] at ho
        subst ho
        exact ⟨rfl, mem_insertPath _ _ _ (self_mem_insertPath _ _)⟩
    · simp only [extractFrames, runPythonScript, hr, updateStatus_eq,
        List.append_assoc, ne_eq, hc, not_false_eq_true, if_true, reduceIte]
      exact ⟨_, rfl, by simp, by simp, ⟨_, rfl⟩, by trivial, by trivial,
        fun p hp => mem_insertPath _ _ _ (mem_insertPath _ _ _ hp), by simp⟩

/-- `analyzeFrames` appends only stage-2 `analyzing_frames` events (two of
them when it succeeds) and spawns exactly one process: the analyzer with
the batch argument capped at 2.  Everything else only grows. -/
theorem analyze_spec (w : World) (cfg : Config) (cb : Callback) (s : PState)
    (mp task : String) :
    ∃ E,
      (analyzeFrames w cfg cb s mp task).2.events = s.events ++ E
      ∧ (∀ ev ∈ E, ev.status = "analyzing_frames" ∧ ev.stage = 2)
      ∧ (∀ o, (analyzeFrames w cfg cb s mp task).1 = Except.ok o → E.map (·.stage) = [2, 2])
      ∧ (analyzeFrames w cfg cb s mp task).2.spawns
          = s.spawns ++ [SpawnRec.mk pythonCmd [analyzerScript, mp, task, toString (min cfg.batchSize 2)]]
      ∧ (analyzeFrames w cfg cb s mp task).2.refineCalls = s.refineCalls
      ∧ (analyzeFrames w cfg cb s mp task).2.fsOps = s.fsOps
      ∧ (∀ p ∈ s.fs, p ∈ (analyzeFrames w cfg cb s mp task).2.fs) := by
  cases hr : w.analyzeRun with
  | spawnErr enoent msg =>
    cases enoent <;>
    · simp only [analyzeFrames, runPythonScript, hr, updateStatus_eq, List.append_assoc]
      exact ⟨_, rfl, by simp, by simp, by trivial, by trivial, by trivial, fun p hp => hp⟩
  | exit code lines errtxt =>
    by_cases hc : code = 0
    · subst hc
      cases hm : w.detectionsOnDisk with
      | none =>
        simp only [analyzeFrames, runPythonScript, hr, hm, updateStatus_eq,
          List.append_assoc, ne_eq, not_true_eq_false, if_false, reduceIte]
        exact ⟨_, rfl, by simp, by simp, by trivial, by trivial, by trivial, fun p hp => hp⟩
      | some d =>
        simp only [analyzeFrames, runPythonScript, hr, hm, updateStatus_eq,
          List.append_assoc, ne_eq, not_true_eq_false, if_false, reduceIte]
        exact ⟨_, rfl, by simp, by simp, by trivial, by trivial, by trivial,
          fun p hp => mem_insertPath _ _ _ hp⟩
    · simp only [analyzeFrames, runPythonScript, hr, updateStatus_eq,
        List.append_assoc, ne_eq, hc, not_false_eq_true, if_true, reduceIte]
      exact ⟨_, rfl, by simp, by simp, by trivial, by trivial, by trivial, fun p hp => hp⟩

/-- The annotated-video path the annotator reports on its last stdout
line (empty when the process did not reach an exit). -/
def annReported (w : World) : String :=
  match w.annotateRun with
  | .exit _ ls _ => ls.getLastD ""
  | _ => ""

/-- `annotateVideo` appends only stage-3 `annotating_video` events (and at
least one when it succeeds: start, progress ticks, completion).  It spawns
the annotator and possibly ffmpeg, never anything else.  The only path it
can remove from the filesystem is the transcode temp path. -/
theorem annotate_spec (w : World) (cfg : Config) (cb : Callback) (s : PState)
    (v dp : String) (op : Option String) :
    ∃ E,
      (annotateVideo w cfg cb s v dp op).2.events = s.events ++ E
      ∧ (∀ ev ∈ E, ev.status = "annotating_video" ∧ ev.stage = 3)
      ∧ (∀ o, (annotateVideo w cfg cb s v dp op).1 = Except.ok o → E ≠ [])
      ∧ (∃ SP, (annotateVideo w cfg cb s v dp op).2.spawns = s.spawns ++ SP
          ∧ ∀ rec ∈ SP, rec.args.head? = some annotatorScript ∨ rec.args.head? = some "-i")
      ∧ (annotateVideo w cfg cb s v dp op).2.refineCalls = s.refineCalls
      ∧ (∀ p ∈ s.fs, p ∈ (annotateVideo w cfg cb s v dp op).2.fs
          ∨ p = tempPathOf (annReported w)) := by
  cases hr : w.annotateRun with
  | spawnErr enoent msg =>
    cases enoent <;>
    · simp only [annotateVideo, hr, updateStatus_eq, List.append_assoc, List.singleton_append]
      exact ⟨_, rfl, by simp, by simp, ⟨_, rfl, by simp⟩, by trivial, fun p hp => .inl hp⟩
  | exit code lines errls =>
    by_cases hc : code = 0
    · subst hc
      cases hae : w.annotatedExists with
      | false =>
        simp only [annotateVideo, hr, hae, updateStatus_eq, emitTicks_eq,
          List.append_assoc, List.singleton_append, ne_eq, not_true_eq_false,
          if_false, reduceIte, Bool.false_eq_true]
        refine ⟨_, rfl, ?_, by simp, ⟨_, rfl, by simp⟩, by trivial, fun p hp => .inl hp⟩
        intro ev hev
        rcases List.mem_cons.mp hev with h | h
        · subst h; exact ⟨rfl, rfl⟩
        rcases List.mem_append.mp h with h | h
        · exact ticksOf_mem _ ev h
        · rw [List.mem_singleton.mp h]; exact ⟨rfl, rfl⟩
      | true =>
        have hrep : annReported w = lines.getLastD "" := by
          simp [annReported, hr]
        cases hf : w.ffmpegRun with
        | spawnErr fen fmsg =>
          cases fen <;>
          · simp only [annotateVideo, reencodeToH264, hr, hae, hf, updateStatus_eq,
              emitTicks_eq, List.append_assoc, List.singleton_append, ne_eq,
              not_true_eq_false, if_false, reduceIte]
            refine ⟨_, rfl, ?_, by simp, ⟨_, rfl, ?_⟩, by trivial,
              fun p hp => .inl (mem_insertPath _ _ _ hp)⟩
            · intro ev hev
              rcases List.mem_cons.mp hev with h | h
              · subst h; exact ⟨rfl, rfl⟩
              rcases List.mem_append.mp h with h | h
              · exact ticksOf_mem _ ev h
              · rw [List.mem_singleton.mp h]; exact ⟨rfl, rfl⟩
            · intro rec hrec
              rcases List.mem_cons.mp hrec with h | h
              · subst h; exact .inl rfl
              · rw [List.mem_singleton.mp h]; exact .inr rfl
        | exit fcode ftemp =>
          by_cases hfo : fcode = 0 ∧ ftemp = true
          · obtain ⟨hf0, hft⟩ := hfo
            subst hf0; subst hft
            simp only [annotateVideo, reencodeToH264, hr, hae, hf, updateStatus_eq,
              emitTicks_eq, List.append_assoc, List.singleton_append, ne_eq,
              not_true_eq_false, if_false, reduceIte, and_self, if_true]
            split
            next hsw =>
              refine ⟨_, rfl, ?_, by simp, ⟨_, rfl, ?_⟩, by trivial, ?_⟩
              · intro ev hev
                rcases List.mem_cons.mp hev with h | h
                · subst h; exact ⟨rfl, rfl⟩
                rcases List.mem_append.mp h with h | h
                · exact ticksOf_mem _ ev h
                · rw [List.mem_singleton.mp h]; exact ⟨rfl, rfl⟩
              · intro rec hrec
                rcases List.mem_cons.mp hrec with h | h
                · subst h; exact .inl rfl
                · rw [List.mem_singleton.mp h]; exact .inr rfl
              · intro p hp
                rw [hrep]
                by_cases hpt : p = tempPathOf (lines.getLastD "")
                · exact .inr hpt
                · by_cases hpa : p = lines.getLastD ""
                  · subst hpa; exact .inl (self_mem_insertPath _ _)
                  · refine .inl (mem_insertPath _ _ _ ?_)
                    rw [List.mem_erase_of_ne hpt, List.mem_erase_of_ne hpa]
                    exact mem_insertPath _ _ _ (mem_insertPath _ _ _ hp)
            next hsw =>
              refine ⟨_, rfl, ?_, by simp, ⟨_, rfl, ?_⟩, by trivial,
                fun p hp =>
                  .inl (mem_insertPath _ _ _ (mem_insertPath _ _ _ hp))⟩
              · intro ev hev
                rcases List.mem_cons.mp hev with h | h
                · subst h; exact ⟨rfl, rfl⟩
                rcases List.mem_append.mp h with h | h
                · exact ticksOf_mem _ ev h
                · rw [List.mem_singleton.mp h]; exact ⟨rfl, rfl⟩
              · intro rec hrec
                rcases List.mem_cons.mp hrec with h | h
                · subst h; exact .inl rfl
                · rw [List.mem_singleton.mp h]; exact .inr rfl
          · simp only [annotateVideo, reencodeToH264, hr, hae, hf, updateStatus_eq,
              emitTicks_eq, List.append_assoc, List.singleton_append, ne_eq,
              not_true_eq_false, if_false, reduceIte, hfo]
            refine ⟨_, rfl, ?_, by simp, ⟨_, rfl, ?_⟩, by trivial,
              fun p hp => .inl (mem_insertPath _ _ _ hp)⟩
            · intro ev hev
              rcases List.mem_cons.mp hev with h | h
              · subst h; exact ⟨rfl, rfl⟩
              rcases List.mem_append.mp h with h | h
              · exact ticksOf_mem _ ev h
              · rw [List.mem_singleton.mp h]; exact ⟨rfl, rfl⟩
            · intro rec hrec
              rcases List.mem_cons.mp hrec with h | h
              · subst h; exact .inl rfl
              · rw [List.mem_singleton.mp h]; exact .inr rfl
    · simp only [annotateVideo, hr, updateStatus_eq, emitTicks_eq,
        List.append_assoc, List.singleton_append, ne_eq, hc, not_false_eq_true,
        if_true, reduceIte]
      refine ⟨_, rfl, ?_, by simp, ⟨_, rfl, by simp⟩, by trivial, fun p hp => .inl hp⟩
      intro ev hev
      rcases List.mem_cons.mp hev with h | h
      · subst h; exact ⟨rfl, rfl⟩
      · exact ticksOf_mem _ ev h

/-! ## Events and result forms used by the coordinator lemmas -/

def initEvent : StatusEvent :=
  { status := "initializing", stage := 0
    details := { action := some "Initializing video processing pipeline" } }

def cleanEvent : StatusEvent :=
  { status := "cleaning_up", stage := 4
    details := { action := some "Cleaning up intermediate files" } }

def doneEvent : StatusEvent :=
  { status := "completed", stage := 5
    details := { action := some "Video processing completed successfully" } }

def skipAnnEvent : StatusEvent :=
  { status := "annotating_video", stage := 3
    details := { action := some "Video annotation skipped" } }

/-- No event of the list is a `failed` event. -/
def NoFailed (E : List StatusEvent) : Prop := ∀ ev ∈ E, ev.status ≠ "failed"

theorem extractor_ne_analyzer : extractorScript ≠ analyzerScript := by decide
theorem annotator_ne_analyzer : annotatorScript ≠ analyzerScript := by decide
theorem dashI_ne_analyzer : "-i" ≠ analyzerScript := by decide
theorem dashI_ne_annotator : "-i" ≠ annotatorScript := by decide
theorem analyzer_ne_annotator : analyzerScript ≠ annotatorScript := by decide

theorem cleanup_events (cfg : Config) (s : PState) (fd : String) :
    (cleanup cfg s fd).events = s.events := by
  unfold cleanup; split <;> rfl

theorem cleanup_spawns (cfg : Config) (s : PState) (fd : String) :
    (cleanup cfg s fd).spawns = s.spawns := by
  unfold cleanup; split <;> rfl

theorem cleanup_refineCalls (cfg : Config) (s : PState) (fd : String) :
    (cleanup cfg s fd).refineCalls = s.refineCalls := by
  unfold cleanup; split <;> rfl

theorem cleanup_fsOps (cfg : Config) (s : PState) (fd : String) :
    (cleanup cfg s fd).fsOps = s.fsOps := by
  unfold cleanup; split <;> rfl

theorem cleanup_keep (cfg : Config) (s : PState) (fd : String)
    (h : cfg.keepIntermediateFiles = true) : cleanup cfg s fd = s := by
  simp [cleanup, h]

theorem cleanup_removes (cfg : Config) (s : PState) (fd : String)
    (h : cfg.keepIntermediateFiles = false) : fd ∉ (cleanup cfg s fd).fs := by
  unfold cleanup
  by_cases hm : fd ∈ s.fs
  · simp [h, hm, List.mem_filter]
  · simp [h, hm]

theorem failedResult_eq (cb : Callback) (s : PState) (e : JsError) :
    failedResult cb s e =
      (failResultOf e, { s with events := s.events ++ [failedEventOf e] }) := by
  simp [failedResult, updateStatus_eq, failedEventOf]

/-- On success, `annotateVideo` returns exactly the path reported on the
last stdout line of the annotator. -/
theorem annotate_ok_val (w : World) (cfg : Config) (cb : Callback) (s : PState)
    (v dp : String) (op : Option String) (pv : String)
    (h : (annotateVideo w cfg cb s v dp op).1 = Except.ok pv) :
    pv = annReported w := by
  cases hr : w.annotateRun with
  | spawnErr enoent msg =>
    cases enoent <;> simp_all [annotateVideo, hr]
  | exit code lines errls =>
    rw [show annReported w = lines.getLastD "" by simp [annReported, hr]]
    by_cases hc : code = 0
    · subst hc
      cases hae : w.annotatedExists with
      | false =>
        simp_all [annotateVideo, hr, hae, emitTicks_eq, updateStatus_eq]
      | true =>
        cases hf : w.ffmpegRun with
        | spawnErr fen fmsg =>
          cases fen <;>
            simp_all [annotateVideo, reencodeToH264, hr, hae, hf,
              emitTicks_eq, updateStatus_eq]
        | exit fcode ftemp =>
          by_cases hfo : fcode = 0 ∧ ftemp = true
          · obtain ⟨hf0, hft⟩ := hfo
            subst hf0; subst hft
            simp only [annotateVideo, reencodeToH264, hr, hae, hf,
              emitTicks_eq, updateStatus_eq, ne_eq, not_true_eq_false,
              if_false, reduceIte, and_self, if_true] at h
            split at h <;> simp_all
          · simp_all [annotateVideo, reencodeToH264, hr, hae, hf,
              emitTicks_eq, updateStatus_eq, hfo]
    · simp_all [annotateVideo, hr, emitTicks_eq, updateStatus_eq, hc]

/-! ## Coordinator-level characterisations -/

/-- What steps 3-5 of the try block guarantee, from any entry state:
the refinement counter is untouched; only annotator/ffmpeg processes are
spawned (none at all when annotation is disabled); and the run either
ends in the catch block — failure result, trailing `failed` event, no
`failed` event before it — or ends successfully with the completion
events, the annotation skip/complete marker, and the cleanup behaviour
for the frames directory. -/
theorem afterAnalysis_spec (w : World) (cfg : Config) (cb : Callback)
    (v t rt : String) (o : Option String) (skip : Bool)
    (ext : ExtractOut) (ana : AnalyzeOut) (s : PState) :
    (afterAnalysis w cfg cb v t rt o skip ext ana s).2.refineCalls = s.refineCalls
    ∧ (∃ SP, (afterAnalysis w cfg cb v t rt o skip ext ana s).2.spawns = s.spawns ++ SP
        ∧ (∀ rec ∈ SP, rec.args.head? = some analyzerScript →
            ∃ m tk, rec.args = [analyzerScript, m, tk, toString (min cfg.batchSize 2)])
        ∧ (cfg.skipAnnotationFlag = true → SP = []))
    ∧ ((∃ e, (afterAnalysis w cfg cb v t rt o skip ext ana s).1 = failResultOf e
          ∧ ∃ Epre, (afterAnalysis w cfg cb v t rt o skip ext ana s).2.events
              = s.events ++ (Epre ++ [failedEventOf e])
            ∧ NoFailed Epre)
      ∨ ((afterAnalysis w cfg cb v t rt o skip ext ana s).1
            = successResult cfg t rt ana ext.manifest skip
                (if cfg.skipAnnotationFlag then none else some (annReported w))
          ∧ (∃ Tail, (afterAnalysis w cfg cb v t rt o skip ext ana s).2.events
                = s.events ++ Tail
              ∧ NoFailed Tail
              ∧ ∃ A, Tail.map (·.stage) = A ++ [4, 5] ∧ A ≠ [] ∧ ∀ x ∈ A, x = (3 : Int))
          ∧ (cfg.keepIntermediateFiles = false →
              ext.framesDir ∉ (afterAnalysis w cfg cb v t rt o skip ext ana s).2.fs)
          ∧ (cfg.keepIntermediateFiles = true → ext.framesDir ∈ s.fs →
              tempPathOf (annReported w) ≠ ext.framesDir →
              ext.framesDir ∈ (afterAnalysis w cfg cb v t rt o skip ext ana s).2.fs))) := by
  cases hskip : cfg.skipAnnotationFlag with
  | true =>
    simp only [afterAnalysis, hskip, Bool.true_eq_false, if_false, reduceIte,
      updateStatus_eq, List.append_assoc, List.singleton_append]
    refine ⟨by simp [cleanup_refineCalls], ⟨[], by simp [cleanup_spawns], by simp, fun _ => rfl⟩, .inr ⟨?_, ?_, ?_, ?_⟩⟩
    · simp [successResult, hskip]
    · refine ⟨[skipAnnEvent, cleanEvent, doneEvent],
        by simp [cleanup_events, skipAnnEvent, cleanEvent, doneEvent], ?_, [3], ?_, by simp, by simp⟩
      · intro ev hev
        rcases List.mem_cons.mp hev with h | h
        · rw [h, skipAnnEvent]; simp
        rcases List.mem_cons.mp h with h | h
        · rw [h, cleanEvent]; simp
        · rw [List.mem_singleton.mp h, doneEvent]; simp
      · simp [skipAnnEvent, cleanEvent, doneEvent]
    · intro hk
      exact cleanup_removes cfg _ ext.framesDir hk
    · intro hk hin _
      rw [cleanup_keep cfg _ ext.framesDir hk]
      exact hin
  | false =>
    rcases han : annotateVideo w cfg cb s v ana.detectionsPath o with ⟨ra, sa⟩
    obtain ⟨E, hEev, hEprop, hEne, ⟨SP, hSP, hSPprop⟩, hRC, hFS⟩ :=
      annotate_spec w cfg cb s v ana.detectionsPath o
    rw [han] at hEev hEne hSP hRC hFS
    simp only at hEev hEne hSP hRC hFS
    have hSPcap : ∀ rec ∈ SP, rec.args.head? = some analyzerScript →
        ∃ m tk, rec.args = [analyzerScript, m, tk, toString (min cfg.batchSize 2)] := by
      intro rec hr hhead
      rcases hSPprop rec hr with h | h
      · rw [hhead, Option.some.injEq] at h
        exact absurd h.symm annotator_ne_analyzer
      · rw [hhead, Option.some.injEq] at h
        exact absurd h.symm dashI_ne_analyzer
    cases ra with
    | error e =>
      simp only [afterAnalysis, hskip, reduceIte, han, failedResult_eq,
        List.append_assoc]
      refine ⟨hRC, ⟨SP, by simp [hSP], hSPcap, by simp⟩, .inl ⟨e, rfl, E, ?_, ?_⟩⟩
      · simp [hEev]
      · intro ev hev
        have := (hEprop ev hev).1
        rw [this]; simp
    | ok pv =>
      have hpv : pv = annReported w := by
        apply annotate_ok_val w cfg cb s v ana.detectionsPath o
        rw [han]
      simp only [afterAnalysis, hskip, reduceIte, han, updateStatus_eq,
        List.append_assoc, List.singleton_append]
      refine ⟨by simp [cleanup_refineCalls, hRC],
        ⟨SP, by simp [cleanup_spawns, hSP], hSPcap, by simp⟩, .inr ⟨?_, ?_, ?_, ?_⟩⟩
      · simp [successResult, hskip, hpv]
      · refine ⟨E ++ [cleanEvent, doneEvent], ?_, ?_, E.map (·.stage), ?_, ?_, ?_⟩
        · simp [cleanup_events, hEev, cleanEvent, doneEvent]
        · intro ev hev
          rcases List.mem_append.mp hev with h | h
          · rw [(hEprop ev h).1]; simp
          rcases List.mem_cons.mp h with h | h
          · rw [h, cleanEvent]; simp
          · rw [List.mem_singleton.mp h, doneEvent]; simp
        · simp [cleanEvent, doneEvent]
        · have hEnil : E ≠ [] := hEne pv rfl
          intro h
          exact hEnil (List.map_eq_nil_iff.mp h)
        · intro x hx
          rcases List.mem_map.mp hx with ⟨ev, hev, hx⟩
          rw [← hx]
          exact (hEprop ev hev).2
      · intro hk
        exact cleanup_removes cfg _ ext.framesDir hk
      · intro hk hin htemp
        rw [cleanup_keep cfg _ ext.framesDir hk]
        simp only []
        rcases hFS ext.framesDir hin with h | h
        · exact h
        · exact absurd h.symm htemp

/-- Step 2 onwards, from any entry state: analysis spawns exactly the
analyzer (with the capped batch argument) and then behaves like
`afterAnalysis`; failures keep the single-trailing-`failed`-event shape. -/
theorem afterExtract_spec (w : World) (cfg : Config) (cb : Callback)
    (v t rt : String) (o : Option String) (skip : Bool)
    (ext : ExtractOut) (s : PState) :
    (afterExtract w cfg cb v t rt o skip ext s).2.refineCalls = s.refineCalls
    ∧ (∃ SP, (afterExtract w cfg cb v t rt o skip ext s).2.spawns = s.spawns ++ SP
        ∧ (∀ rec ∈ SP, rec.args.head? = some analyzerScript →
            ∃ m tk, rec.args = [analyzerScript, m, tk, toString (min cfg.batchSize 2)])
        ∧ (cfg.skipAnnotationFlag = true →
            ∀ rec ∈ SP, rec.args.head? ≠ some annotatorScript))
    ∧ ((∃ e, (afterExtract w cfg cb v t rt o skip ext s).1 = failResultOf e
          ∧ ∃ Epre, (afterExtract w cfg cb v t rt o skip ext s).2.events
              = s.events ++ (Epre ++ [failedEventOf e])
            ∧ NoFailed Epre)
      ∨ (∃ ana, (afterExtract w cfg cb v t rt o skip ext s).1
            = successResult cfg t rt ana ext.manifest skip
                (if cfg.skipAnnotationFlag then none else some (annReported w))
          ∧ (∃ Tail, (afterExtract w cfg cb v t rt o skip ext s).2.events
                = s.events ++ Tail
              ∧ NoFailed Tail
              ∧ ∃ A, Tail.map (·.stage) = 2 :: 2 :: (A ++ [4, 5])
                  ∧ A ≠ [] ∧ ∀ x ∈ A, x = (3 : Int))
          ∧ (cfg.keepIntermediateFiles = false →
              ext.framesDir ∉ (afterExtract w cfg cb v t rt o skip ext s).2.fs)
          ∧ (cfg.keepIntermediateFiles = true → ext.framesDir ∈ s.fs →
              tempPathOf (annReported w) ≠ ext.framesDir →
              ext.framesDir ∈ (afterExtract w cfg cb v t rt o skip ext s).2.fs))) := by
  rcases hana : analyzeFrames w cfg cb s ext.manifestPath rt with ⟨raa, sb⟩
  obtain ⟨E2, hE2ev, hE2prop, hE2map, hE2sp, hE2rc, hE2ops, hE2fs⟩ :=
    analyze_spec w cfg cb s ext.manifestPath rt
  rw [hana] at hE2ev hE2map hE2sp hE2rc hE2ops hE2fs
  simp only at hE2ev hE2map hE2sp hE2rc hE2ops hE2fs
  cases raa with
  | error e =>
    simp only [afterExtract, hana, failedResult_eq, List.append_assoc]
    refine ⟨hE2rc,
      ⟨[SpawnRec.mk pythonCmd [analyzerScript, ext.manifestPath, rt, toString (min cfg.batchSize 2)]],
        by simp [hE2sp], ?_, ?_⟩,
      .inl ⟨e, rfl, E2, by simp [hE2ev], ?_⟩⟩
    · intro rec hrec _
      rw [List.mem_singleton.mp hrec]
      exact ⟨ext.manifestPath, rt, rfl⟩
    · intro _ rec hrec
      rw [List.mem_singleton.mp hrec]
      simp [Option.some.injEq]
      exact fun h => analyzer_ne_annotator h
    · intro ev hev
      rw [(hE2prop ev hev).1]; simp
  | ok ana =>
    have hstep : afterExtract w cfg cb v t rt o skip ext s
        = afterAnalysis w cfg cb v t rt o skip ext ana sb := by
      simp [afterExtract, hana]
    obtain ⟨hArc, ⟨SPA, hSPA, hAcap, hAskip⟩, hforms⟩ :=
      afterAnalysis_spec w cfg cb v t rt o skip ext ana sb
    rw [hstep]
    have hE2m : E2.map (·.stage) = [2, 2] := hE2map ana rfl
    refine ⟨by rw [hArc, hE2rc],
      ⟨SpawnRec.mk pythonCmd [analyzerScript, ext.manifestPath, rt, toString (min cfg.batchSize 2)] :: SPA,
        by rw [hSPA, hE2sp]; simp, ?_, ?_⟩, ?_⟩
    · intro rec hrec hhead
      rcases List.mem_cons.mp hrec with h | h
      · rw [h]; exact ⟨ext.manifestPath, rt, rfl⟩
      · exact hAcap rec h hhead
    · intro hsk rec hrec
      rcases List.mem_cons.mp hrec with h | h
      · rw [h]
        simp [Option.some.injEq]
        exact fun h => analyzer_ne_annotator h
      · rw [hAskip hsk] at h
        simp at h
    rcases hforms with ⟨e, h1, Epre, h2, h3⟩ | ⟨hres, ⟨Tail, hTev, hTnf, A, hTmap, hAne, hA3⟩, hfs0, hfs1⟩
    · refine .inl ⟨e, h1, E2 ++ Epre, ?_, ?_⟩
      · rw [h2, hE2ev]; simp
      · intro ev hev
        rcases List.mem_append.mp hev with h | h
        · rw [(hE2prop ev h).1]; simp
        · exact h3 ev h
    · refine .inr ⟨ana, hres, ⟨E2 ++ Tail, ?_, ?_, A, ?_, hAne, hA3⟩, hfs0, ?_⟩
      · rw [hTev, hE2ev]; simp
      · intro ev hev
        rcases List.mem_append.mp hev with h | h
        · rw [(hE2prop ev h).1]; simp
        · exact hTnf ev h
      · rw [List.map_append, hE2m, hTmap]; rfl
      · intro hk hin htemp
        exact hfs1 hk (hE2fs ext.framesDir hin) htemp

/-- The whole try block after refinement, from any entry state.  On
success the frames directory is the session directory derived from the
work dir and the session id, and the cleanup clauses are phrased for it. -/
theorem runFromExtract_spec (w : World) (cfg : Config) (cb : Callback)
    (v t rt : String) (o : Option String) (skip : Bool) (s : PState) :
    (runFromExtract w cfg cb v t rt o skip s).2.refineCalls = s.refineCalls
    ∧ (∃ SP, (runFromExtract w cfg cb v t rt o skip s).2.spawns = s.spawns ++ SP
        ∧ (∀ rec ∈ SP, rec.args.head? = some analyzerScript →
            ∃ m tk, rec.args = [analyzerScript, m, tk, toString (min cfg.batchSize 2)])
        ∧ (cfg.skipAnnotationFlag = true →
            ∀ rec ∈ SP, rec.args.head? ≠ some annotatorScript))
    ∧ ((∃ e, (runFromExtract w cfg cb v t rt o skip s).1 = failResultOf e
          ∧ ∃ Epre, (runFromExtract w cfg cb v t rt o skip s).2.events
              = s.events ++ (Epre ++ [failedEventOf e])
            ∧ NoFailed Epre)
      ∨ (∃ ana man, (runFromExtract w cfg cb v t rt o skip s).1
            = successResult cfg t rt ana man skip
                (if cfg.skipAnnotationFlag then none else some (annReported w))
          ∧ (∃ Tail, (runFromExtract w cfg cb v t rt o skip s).2.events
                = s.events ++ Tail
              ∧ NoFailed Tail
              ∧ ∃ A, Tail.map (·.stage) = 1 :: 1 :: 2 :: 2 :: (A ++ [4, 5])
                  ∧ A ≠ [] ∧ ∀ x ∈ A, x = (3 : Int))
          ∧ (cfg.keepIntermediateFiles = false →
              (cfg.workDir ++ "/frames_" ++ w.sessionId)
                ∉ (runFromExtract w cfg cb v t rt o skip s).2.fs)
          ∧ (cfg.keepIntermediateFiles = true →
              tempPathOf (annReported w) ≠ cfg.workDir ++ "/frames_" ++ w.sessionId →
              (cfg.workDir ++ "/frames_" ++ w.sessionId)
                ∈ (runFromExtract w cfg cb v t rt o skip s).2.fs))) := by
  rcases hx : extractFrames w cfg cb s v with ⟨rx, sx⟩
  obtain ⟨E1, hE1ev, hE1prop, hE1map, ⟨a1, hE1sp⟩, hE1rc, hE1ops, hE1fs, hE1ok⟩ :=
    extract_spec w cfg cb s v
  rw [hx] at hE1ev hE1map hE1sp hE1rc hE1ops hE1fs hE1ok
  simp only at hE1ev hE1map hE1sp hE1rc hE1ops hE1fs hE1ok
  cases rx with
  | error e =>
    simp only [runFromExtract, hx, failedResult_eq, List.append_assoc]
    refine ⟨hE1rc,
      ⟨[SpawnRec.mk pythonCmd (extractorScript :: a1)], by simp [hE1sp], ?_, ?_⟩,
      .inl ⟨e, rfl, E1, by simp [hE1ev], ?_⟩⟩
    · intro rec hrec hhead
      rw [List.mem_singleton.mp hrec] at hhead
      simp only [List.head?_cons, Option.some.injEq] at hhead
      exact absurd hhead extractor_ne_analyzer
    · intro _ rec hrec
      rw [List.mem_singleton.mp hrec]
      simp [Option.some.injEq]
      intro h
      exact absurd h (by decide)
    · intro ev hev
      rw [(hE1prop ev hev).1]; simp
  | ok ext =>
    obtain ⟨hdir, hmem⟩ := hE1ok ext rfl
    have hstep : runFromExtract w cfg cb v t rt o skip s
        = afterExtract w cfg cb v t rt o skip ext sx := by
      simp [runFromExtract, hx]
    obtain ⟨hBrc, ⟨SPB, hSPB, hBcap, hBskip⟩, hforms⟩ :=
      afterExtract_spec w cfg cb v t rt o skip ext sx
    rw [hstep]
    have hE1m : E1.map (·.stage) = [1, 1] := hE1map ext rfl
    refine ⟨by rw [hBrc, hE1rc],
      ⟨SpawnRec.mk pythonCmd (extractorScript :: a1) :: SPB,
        by rw [hSPB, hE1sp]; simp, ?_, ?_⟩, ?_⟩
    · intro rec hrec hhead
      rcases List.mem_cons.mp hrec with h | h
      · rw [h] at hhead
        simp only [List.head?_cons, Option.some.injEq] at hhead
        exact absurd hhead extractor_ne_analyzer
      · exact hBcap rec h hhead
    · intro hsk rec hrec
      rcases List.mem_cons.mp hrec with h | h
      · rw [h]
        simp [Option.some.injEq]
        intro h
        exact absurd h (by decide)
      · exact hBskip hsk rec h
    rcases hforms with ⟨e, h1, Epre, h2, h3⟩ | ⟨ana, hres, ⟨Tail, hTev, hTnf, A, hTmap, hAne, hA3⟩, hfs0, hfs1⟩
    · refine .inl ⟨e, h1, E1 ++ Epre, ?_, ?_⟩
      · rw [h2, hE1ev]; simp
      · intro ev hev
        rcases List.mem_append.mp hev with h | h
        · rw [(hE1prop ev h).1]; simp
        · exact h3 ev h
    · refine .inr ⟨ana, ext.manifest, hres, ⟨E1 ++ Tail, ?_, ?_, A, ?_, hAne, hA3⟩, ?_, ?_⟩
      · rw [hTev, hE1ev]; simp
      · intro ev hev
        rcases List.mem_append.mp hev with h | h
        · rw [(hE1prop ev h).1]; simp
        · exact hTnf ev h
      · rw [List.map_append, hE1m, hTmap]; rfl
      · intro hk
        rw [← hdir]
        exact hfs0 hk
      · intro hk htemp
        rw [← hdir]
        exact hfs1 hk hmem (by rw [hdir]; exact htemp)

/-- The full try block (refinement included), from any entry state. -/
theorem runPipeline_spec (w : World) (cfg : Config) (cb : Callback)
    (v t : String) (o : Option String) (skip : Bool) (s : PState) :
    (runPipeline w cfg cb v t o skip s).2.refineCalls
        = s.refineCalls + (if skip then 0 else 1)
    ∧ (∃ SP, (runPipeline w cfg cb v t o skip s).2.spawns = s.spawns ++ SP
        ∧ (∀ rec ∈ SP, rec.args.head? = some analyzerScript →
            ∃ m tk, rec.args = [analyzerScript, m, tk, toString (min cfg.batchSize 2)])
        ∧ (cfg.skipAnnotationFlag = true →
            ∀ rec ∈ SP, rec.args.head? ≠ some annotatorScript))
    ∧ ((∃ e, (runPipeline w cfg cb v t o skip s).1 = failResultOf e
          ∧ ∃ Epre, (runPipeline w cfg cb v t o skip s).2.events
              = s.events ++ (Epre ++ [failedEventOf e])
            ∧ NoFailed Epre)
      ∨ (∃ rt ana man, (runPipeline w cfg cb v t o skip s).1
            = successResult cfg t rt ana man skip
                (if cfg.skipAnnotationFlag then none else some (annReported w))
          ∧ (skip = true → rt = t)
          ∧ (∃ Tail, (runPipeline w cfg cb v t o skip s).2.events
                = s.events ++ Tail
              ∧ NoFailed Tail
              ∧ ∃ A, Tail.map (·.stage)
                    = (if skip then ([] : List Int) else [0, 0])
                        ++ (1 :: 1 :: 2 :: 2 :: (A ++ [4, 5]))
                  ∧ A ≠ [] ∧ ∀ x ∈ A, x = (3 : Int))
          ∧ (cfg.keepIntermediateFiles = false →
              (cfg.workDir ++ "/frames_" ++ w.sessionId)
                ∉ (runPipeline w cfg cb v t o skip s).2.fs)
          ∧ (cfg.keepIntermediateFiles = true →
              tempPathOf (annReported w) ≠ cfg.workDir ++ "/frames_" ++ w.sessionId →
              (cfg.workDir ++ "/frames_" ++ w.sessionId)
                ∈ (runPipeline w cfg cb v t o skip s).2.fs))) := by
  cases skip with
  | true =>
    have hstep : runPipeline w cfg cb v t o true s
        = runFromExtract w cfg cb v t t o true s := rfl
    rw [hstep]
    obtain ⟨hrc, hsp, hforms⟩ := runFromExtract_spec w cfg cb v t t o true s
    refine ⟨by simp [hrc], hsp, ?_⟩
    rcases hforms with h | ⟨ana, man, hres, hTail, hfs0, hfs1⟩
    · exact .inl h
    · refine .inr ⟨t, ana, man, hres, fun _ => rfl, ?_, hfs0, hfs1⟩
      obtain ⟨Tail, hTev, hTnf, A, hTmap, hAne, hA3⟩ := hTail
      exact ⟨Tail, hTev, hTnf, A, by simpa using hTmap, hAne, hA3⟩
  | false =>
    rcases href : refineTaskDescription w cb s t with ⟨rt, s2⟩
    obtain ⟨R, hRst, hRmap, hRstat⟩ := refine_spec w cb s t
    rw [href] at hRst
    simp only at hRst
    have hstep : runPipeline w cfg cb v t o false s
        = runFromExtract w cfg cb v t rt o false s2 := by
      simp [runPipeline, href]
    rw [hstep]
    obtain ⟨hrc, ⟨SP, hSP, hcap, hskipc⟩, hforms⟩ :=
      runFromExtract_spec w cfg cb v t rt o false s2
    have hs2ev : s2.events = s.events ++ R := by rw [hRst]
    have hs2sp : s2.spawns = s.spawns := by rw [hRst]
    have hs2rc : s2.refineCalls = s.refineCalls + 1 := by rw [hRst]
    refine ⟨by rw [hrc, hs2rc]; simp, ⟨SP, by rw [hSP, hs2sp], hcap, hskipc⟩, ?_⟩
    rcases hforms with ⟨e, h1, Epre, h2, h3⟩ | ⟨ana, man, hres, ⟨Tail, hTev, hTnf, A, hTmap, hAne, hA3⟩, hfs0, hfs1⟩
    · refine .inl ⟨e, h1, R ++ Epre, ?_, ?_⟩
      · rw [h2, hs2ev]; simp
      · intro ev hev
        rcases List.mem_append.mp hev with h | h
        · rw [hRstat ev h]; simp
        · exact h3 ev h
    · refine .inr ⟨rt, ana, man, hres, by simp, ⟨R ++ Tail, ?_, ?_, A, ?_, hAne, hA3⟩, hfs0, hfs1⟩
      · rw [hTev, hs2ev]; simp
      · intro ev hev
        rcases List.mem_append.mp hev with h | h
        · rw [hRstat ev h]; simp
        · exact hTnf ev h
      · rw [List.map_append, hRmap, hTmap]; rfl

/-- The initial state right after the `initializing` event. -/
def initState : PState := { events := [initEvent] }

theorem processVideo_eq_runPipeline (w : World) (cfg : Config) (cb : Callback)
    (v t : String) (o : Option String) (skip : Bool) :
    processVideo w cfg cb v t o skip = runPipeline w cfg cb v t o skip initState := by
  simp only [processVideo, updateStatus_eq, List.nil_append]
  rfl

/-- Master characterisation of a full `processVideo` run: the refinement
call count, the spawned processes, and the two terminal shapes (failure
with a single trailing `failed` event, or success with the full
non-decreasing stage trace and the cleanup behaviour). -/
theorem processVideo_spec (w : World) (cfg : Config) (cb : Callback)
    (v t : String) (o : Option String) (skip : Bool) :
    (processVideo w cfg cb v t o skip).2.refineCalls = (if skip then 0 else 1)
    ∧ (∃ SP, (processVideo w cfg cb v t o skip).2.spawns = SP
        ∧ (∀ rec ∈ SP, rec.args.head? = some analyzerScript →
            ∃ m tk, rec.args = [analyzerScript, m, tk, toString (min cfg.batchSize 2)])
        ∧ (cfg.skipAnnotationFlag = true →
            ∀ rec ∈ SP, rec.args.head? ≠ some annotatorScript))
    ∧ ((∃ e, (processVideo w cfg cb v t o skip).1 = failResultOf e
          ∧ ∃ Epre, (processVideo w cfg cb v t o skip).2.events
              = Epre ++ [failedEventOf e]
            ∧ NoFailed Epre)
      ∨ (∃ rt ana man, (processVideo w cfg cb v t o skip).1
            = successResult cfg t rt ana man skip
                (if cfg.skipAnnotationFlag then none else some (annReported w))
          ∧ (skip = true → rt = t)
          ∧ NoFailed (processVideo w cfg cb v t o skip).2.events
          ∧ (∃ A, stagesOf (processVideo w cfg cb v t o skip).2
                = 0 :: ((if skip then ([] : List Int) else [0, 0])
                    ++ (1 :: 1 :: 2 :: 2 :: (A ++ [4, 5])))
              ∧ A ≠ [] ∧ ∀ x ∈ A, x = (3 : Int))
          ∧ (cfg.keepIntermediateFiles = false →
              (cfg.workDir ++ "/frames_" ++ w.sessionId)
                ∉ (processVideo w cfg cb v t o skip).2.fs)
          ∧ (cfg.keepIntermediateFiles = true →
              tempPathOf (annReported w) ≠ cfg.workDir ++ "/frames_" ++ w.sessionId →
              (cfg.workDir ++ "/frames_" ++ w.sessionId)
                ∈ (processVideo w cfg cb v t o skip).2.fs))) := by
  rw [processVideo_eq_runPipeline]
  obtain ⟨hrc, ⟨SP, hSP, hcap, hskipc⟩, hforms⟩ :=
    runPipeline_spec w cfg cb v t o skip initState
  refine ⟨by rw [hrc]; simp [initState], ⟨SP, by rw [hSP]; simp [initState], hcap, hskipc⟩, ?_⟩
  rcases hforms with ⟨e, h1, Epre, h2, h3⟩ | ⟨rt, ana, man, hres, hrt, ⟨Tail, hTev, hTnf, A, hTmap, hAne, hA3⟩, hfs0, hfs1⟩
  · refine .inl ⟨e, h1, initEvent :: Epre, ?_, ?_⟩
    · rw [h2]; simp [initState]
    · intro ev hev
      rcases List.mem_cons.mp hev with h | h
      · rw [h, initEvent]; simp
      · exact h3 ev h
  · refine .inr ⟨rt, ana, man, hres, hrt, ?_, ⟨A, ?_, hAne, hA3⟩, hfs0, hfs1⟩
    · intro ev hev
      rw [hTev] at hev
      simp only [initState, List.mem_append] at hev
      rcases hev with h | h
      · rcases List.mem_singleton.mp h with h
        rw [h, initEvent]; simp
      · exact hTnf ev h
    · unfold stagesOf
      rw [hTev]
      simp [initState, initEvent, hTmap]

/-! ## Evaluation lemmas for pinned oracle outcomes -/

/-- When the extractor exits 0 and the manifest exists, extraction
succeeds and does not touch the fs-op trace. -/
theorem extract_ok (w : World) (cfg : Config) (cb : Callback) (s : PState)
    (v : String) (el : List String) (es : String) (m : Manifest)
    (h1 : w.extractRun = ProcRun.exit 0 el es) (h2 : w.manifestOnDisk = some m) :
    (∃ ext, (extractFrames w cfg cb s v).1 = Except.ok ext)
    ∧ (extractFrames w cfg cb s v).2.fsOps = s.fsOps := by
  simp [extractFrames, runPythonScript, h1, h2, updateStatus_eq]

/-- When the analyzer exits 0 and the detections file exists, analysis
succeeds and does not touch the fs-op trace. -/
theorem analyze_ok (w : World) (cfg : Config) (cb : Callback) (s : PState)
    (mp tk : String) (al : List String) (as2 : String) (d : Detections)
    (h1 : w.analyzeRun = ProcRun.exit 0 al as2) (h2 : w.detectionsOnDisk = some d) :
    (∃ ana, (analyzeFrames w cfg cb s mp tk).1 = Except.ok ana)
    ∧ (analyzeFrames w cfg cb s mp tk).2.fsOps = s.fsOps := by
  simp [analyzeFrames, runPythonScript, h1, h2, updateStatus_eq]

/-- An annotator that exits non-zero makes `annotateVideo` reject with a
message that ends with the captured stderr. -/
theorem annotate_nonzero (w : World) (cfg : Config) (cb : Callback) (s : PState)
    (v dp : String) (op : Option String) (code : Nat) (sol : List String)
    (sel : List AnnLine) (hr : w.annotateRun = AnnRun.exit code sol sel)
    (hc : code ≠ 0) :
    (annotateVideo w cfg cb s v dp op).1
      = Except.error (mkError ("Annotation failed with code " ++ toString code
          ++ "\n" ++ annStderr sel)) := by
  simp [annotateVideo, hr, emitTicks_eq, updateStatus_eq, hc]

theorem tempPathOf_ne_empty (p : String) (h : p ≠ "") : tempPathOf p ≠ "" := by
  unfold tempPathOf
  split
  · intro hc
    have hlen := congrArg String.length hc
    simp [String.length_append] at hlen
    exact absurd hlen.2 (by decide)
  · exact h

/-- Whether a given ffmpeg outcome makes `reencodeToH264` reject. -/
def FfmpegFails : FfmpegRun → Prop
  | .spawnErr _ _ => True
  | .exit c tc => ¬(c = 0 ∧ tc = true)

/-- `annotateVideo` under a successful annotator run: if the transcoder
succeeds the coordinator performs the unlink/rename swap and keeps the
same path; if the transcoder fails in any way, the call still succeeds
with the same path and performs no unlink/rename at all. -/
theorem annotate_transcode (w : World) (cfg : Config) (cb : Callback)
    (s : PState) (v dp : String) (op : Option String) (sol : List String)
    (sel : List AnnLine) (hr : w.annotateRun = AnnRun.exit 0 sol sel)
    (he : w.annotatedExists = true) (hne : sol.getLastD "" ≠ "") :
    (w.ffmpegRun = FfmpegRun.exit 0 true →
      (annotateVideo w cfg cb s v dp op).1 = Except.ok (sol.getLastD "")
      ∧ (annotateVideo w cfg cb s v dp op).2.fsOps
          = s.fsOps ++ [FsOp.unlink (sol.getLastD ""),
              FsOp.rename (tempPathOf (sol.getLastD "")) (sol.getLastD "")])
    ∧ (FfmpegFails w.ffmpegRun →
      (annotateVideo w cfg cb s v dp op).1 = Except.ok (sol.getLastD "")
      ∧ (annotateVideo w cfg cb s v dp op).2.fsOps = s.fsOps) := by
  have hne2 : sol.getLast?.getD "" ≠ "" := by
    rw [← List.getLastD_eq_getLast?]; exact hne
  constructor
  · intro hf
    have h1 : tempPathOf (sol.getLast?.getD "") ≠ "" := tempPathOf_ne_empty _ hne2
    have h2 : ∀ l : List String,
        tempPathOf (sol.getLast?.getD "") ∈ insertPath (tempPathOf (sol.getLast?.getD "")) l :=
      fun l => self_mem_insertPath _ l
    simp [annotateVideo, reencodeToH264, hr, he, hf, emitTicks_eq,
      updateStatus_eq, h1, h2]
  · intro hf
    cases hfr : w.ffmpegRun with
    | spawnErr fen fmsg =>
      cases fen <;>
        simp [annotateVideo, reencodeToH264, hr, he, hfr, emitTicks_eq,
          updateStatus_eq]
    | exit fcode ftemp =>
      rw [hfr] at hf
      simp only [FfmpegFails] at hf
      simp [annotateVideo, reencodeToH264, hr, he, hfr, emitTicks_eq,
        updateStatus_eq, hf]

/-- `extractFrames` always emits its stage-1 start event, whatever the
oracle does afterwards. -/
theorem extract_start_event (w : World) (cfg : Config) (cb : Callback)
    (s : PState) (v : String) :
    ∃ ev ∈ (extractFrames w cfg cb s v).2.events,
      ev.status = "extracting_frames" ∧ ev.stage = 1 := by
  refine ⟨StatusEvent.mk "extracting_frames" 1
    { action := some "Starting frame extraction" }, ?_, rfl, rfl⟩
  cases hr : w.extractRun with
  | spawnErr enoent msg =>
    cases enoent <;> simp [extractFrames, runPythonScript, hr, updateStatus_eq]
  | exit code lines errtxt =>
    by_cases hc : code = 0
    · subst hc
      cases hm : w.manifestOnDisk <;>
        simp [extractFrames, runPythonScript, hr, hm, updateStatus_eq]
    · simp [extractFrames, runPythonScript, hr, hc, updateStatus_eq]

/-- One step of the stage sequence: non-decreasing and advancing by at
most one. -/
def stepOk (a b : Int) : Prop := a ≤ b ∧ b ≤ a + 1

instance stepOkDecidable (a b : Int) : Decidable (stepOk a b) :=
  inferInstanceAs (Decidable (a ≤ b ∧ b ≤ a + 1))

/-- The stage trace of a successful run starts at 0, ends at 5, and each
step is non-decreasing and skips no stage. -/
theorem chain_shape (R A : List Int) (hR : R = [] ∨ R = [0, 0]) (hA : A ≠ [])
    (h3 : ∀ x ∈ A, x = 3) :
    (0 :: (R ++ (1 :: 1 :: 2 :: 2 :: (A ++ [4, 5])))).head? = some 0
    ∧ (0 :: (R ++ (1 :: 1 :: 2 :: 2 :: (A ++ [4, 5])))).getLast? = some (5 : Int)
    ∧ List.Chain' stepOk (0 :: (R ++ (1 :: 1 :: 2 :: 2 :: (A ++ [4, 5])))) := by
  obtain ⟨n, hn⟩ : ∃ n, A = List.replicate (n + 1) 3 := by
    cases hA2 : A with
    | nil => exact absurd hA2 hA
    | cons a tl =>
      refine ⟨tl.length, ?_⟩
      rw [← hA2]
      have := List.eq_replicate_of_mem h3
      rw [this, hA2]
      simp
  subst hn
  have hchainA : List.Chain' stepOk (List.replicate (n + 1) (3 : Int)) :=
    List.chain'_replicate_of_rel _ ⟨le_refl _, by omega⟩
  have hheadA : (List.replicate (n + 1) (3 : Int) ++ [4, 5]).head? = some 3 := by
    rw [List.replicate_succ]; rfl
  have hlastA : (List.replicate (n + 1) (3 : Int)).getLast? = some 3 := by
    rw [List.replicate_succ', List.getLast?_concat]
  have hM : List.Chain' stepOk (1 :: 1 :: 2 :: 2 :: (List.replicate (n + 1) (3 : Int) ++ [4, 5])) := by
    have htail : List.Chain' stepOk (List.replicate (n + 1) (3 : Int) ++ [4, 5]) := by
      apply List.Chain'.append hchainA
        (List.chain'_cons.mpr ⟨⟨by omega, by omega⟩, List.chain'_singleton _⟩)
      intro x hx y hy
      rw [hlastA, Option.mem_def, Option.some.injEq] at hx
      simp only [List.head?_cons, Option.mem_def, Option.some.injEq] at hy
      subst hx; subst hy
      exact ⟨by omega, by omega⟩
    have hfour : List.Chain' stepOk ([1, 1, 2, 2] ++ (List.replicate (n + 1) (3 : Int) ++ [4, 5])) := by
      apply List.Chain'.append
        (List.chain'_cons.mpr ⟨⟨by omega, by omega⟩,
          List.chain'_cons.mpr ⟨⟨by omega, by omega⟩,
            List.chain'_cons.mpr ⟨⟨by omega, by omega⟩, List.chain'_singleton _⟩⟩⟩) htail
      intro x hx y hy
      simp only [List.getLast?_cons_cons, List.getLast?_singleton,
        Option.mem_def, Option.some.injEq] at hx
      rw [hheadA, Option.mem_def, Option.some.injEq] at hy
      subst hx; subst hy
      exact ⟨by omega, by omega⟩
    simpa using hfour
  have hlast5 : ∀ X : List Int,
      (0 :: (X ++ (1 :: 1 :: 2 :: 2 :: (List.replicate (n + 1) (3 : Int) ++ [4, 5])))).getLast?
        = some 5 := by
    intro X
    have hsplit : 0 :: (X ++ (1 :: 1 :: 2 :: 2 :: (List.replicate (n + 1) (3 : Int) ++ [4, 5])))
        = (0 :: (X ++ (1 :: 1 :: 2 :: 2 :: (List.replicate (n + 1) (3 : Int) ++ [4])))) ++ [5] := by
      simp
    rw [hsplit, List.getLast?_concat]
  rcases hR with h | h <;> subst h
  · refine ⟨rfl, hlast5 [], ?_⟩
    simp only [List.nil_append]
    refine List.chain'_cons'.mpr ⟨?_, hM⟩
    intro y hy
    simp only [List.head?_cons, Option.mem_def, Option.some.injEq] at hy
    subst hy
    exact ⟨by omega, by omega⟩
  · refine ⟨rfl, hlast5 [0, 0], ?_⟩
    have hfull : List.Chain' stepOk ([0, 0, 0]
        ++ (1 :: 1 :: 2 :: 2 :: (List.replicate (n + 1) (3 : Int) ++ [4, 5]))) := by
      apply List.Chain'.append
        (List.chain'_cons.mpr ⟨⟨by omega, by omega⟩,
          List.chain'_cons.mpr ⟨⟨by omega, by omega⟩, List.chain'_singleton _⟩⟩) hM
      intro x hx y hy
      simp only [List.getLast?_cons_cons, List.getLast?_singleton,
        Option.mem_def, Option.some.injEq] at hx
      simp only [List.head?_cons, Option.mem_def, Option.some.injEq] at hy
      subst hx; subst hy
      exact ⟨by omega, by omega⟩
    simpa using hfull

/-! ## Callback invariance: a throwing status callback changes nothing -/

theorem updateStatus_cb (cb cb2 : Callback) (s : PState) (st : String)
    (stg : Int) (d : EventDetails) :
    updateStatus cb s st stg d = updateStatus cb2 s st stg d := by
  rw [updateStatus_eq, updateStatus_eq]

theorem emitTicks_cb (cb cb2 : Callback) (s : PState) (ls : List AnnLine) :
    emitTicks cb s ls = emitTicks cb2 s ls := by
  rw [emitTicks_eq, emitTicks_eq]

theorem refine_cb (w : World) (cb cb2 : Callback) (s : PState) (u : String) :
    refineTaskDescription w cb s u = refineTaskDescription w cb2 s u := by
  cases h : w.refineOutcome <;>
    simp [refineTaskDescription, h, updateStatus_eq]

theorem extract_cb (w : World) (cfg : Config) (cb cb2 : Callback) (s : PState)
    (v : String) : extractFrames w cfg cb s v = extractFrames w cfg cb2 s v := by
  cases hr : w.extractRun with
  | spawnErr enoent msg =>
    cases enoent <;> simp [extractFrames, runPythonScript, hr, updateStatus_eq]
  | exit code lines errtxt =>
    by_cases hc : code = 0
    · subst hc
      cases hm : w.manifestOnDisk <;>
        simp [extractFrames, runPythonScript, hr, hm, updateStatus_eq]
    · simp [extractFrames, runPythonScript, hr, hc, updateStatus_eq]

theorem analyze_cb (w : World) (cfg : Config) (cb cb2 : Callback) (s : PState)
    (mp tk : String) :
    analyzeFrames w cfg cb s mp tk = analyzeFrames w cfg cb2 s mp tk := by
  cases hr : w.analyzeRun with
  | spawnErr enoent msg =>
    cases enoent <;> simp [analyzeFrames, runPythonScript, hr, updateStatus_eq]
  | exit code lines errtxt =>
    by_cases hc : code = 0
    · subst hc
      cases hm : w.detectionsOnDisk <;>
        simp [analyzeFrames, runPythonScript, hr, hm, updateStatus_eq]
    · simp [analyzeFrames, runPythonScript, hr, hc, updateStatus_eq]

theorem annotate_cb (w : World) (cfg : Config) (cb cb2 : Callback) (s : PState)
    (v dp : String) (op : Option String) :
    annotateVideo w cfg cb s v dp op = annotateVideo w cfg cb2 s v dp op := by
  cases hr : w.annotateRun with
  | spawnErr enoent msg =>
    cases enoent <;> simp [annotateVideo, hr, updateStatus_eq]
  | exit code lines errls =>
    by_cases hc : code = 0
    · subst hc
      cases hae : w.annotatedExists with
      | false => simp [annotateVideo, hr, hae, emitTicks_eq, updateStatus_eq]
      | true =>
        cases hf : w.ffmpegRun with
        | spawnErr fen fmsg =>
          cases fen <;>
            simp [annotateVideo, reencodeToH264, hr, hae, hf, emitTicks_eq,
              updateStatus_eq]
        | exit fcode ftemp =>
          by_cases hfo : fcode = 0 ∧ ftemp = true
          · obtain ⟨h0, h1⟩ := hfo
            subst h0; subst h1
            simp [annotateVideo, reencodeToH264, hr, hae, hf, emitTicks_eq,
              updateStatus_eq]
          · simp [annotateVideo, reencodeToH264, hr, hae, hf, emitTicks_eq,
              updateStatus_eq, hfo]
    · simp [annotateVideo, hr, hc, emitTicks_eq, updateStatus_eq]

theorem failedResult_cb (cb cb2 : Callback) (s : PState) (e : JsError) :
    failedResult cb s e = failedResult cb2 s e := by
  rw [failedResult_eq, failedResult_eq]

theorem afterAnalysis_cb (w : World) (cfg : Config) (cb cb2 : Callback)
    (v t rt : String) (o : Option String) (skip : Bool)
    (ext : ExtractOut) (ana : AnalyzeOut) (s : PState) :
    afterAnalysis w cfg cb v t rt o skip ext ana s
      = afterAnalysis w cfg cb2 v t rt o skip ext ana s := by
  cases hs : cfg.skipAnnotationFlag with
  | true => simp [afterAnalysis, hs, updateStatus_eq]
  | false =>
    rcases ha : annotateVideo w cfg cb s v ana.detectionsPath o with ⟨ra, sa⟩
    have ha2 : annotateVideo w cfg cb2 s v ana.detectionsPath o = (ra, sa) := by
      rw [← annotate_cb w cfg cb cb2 s v ana.detectionsPath o]
      exact ha
    cases ra <;>
      simp [afterAnalysis, hs, ha, ha2, updateStatus_eq, failedResult_eq]

theorem afterExtract_cb (w : World) (cfg : Config) (cb cb2 : Callback)
    (v t rt : String) (o : Option String) (skip : Bool)
    (ext : ExtractOut) (s : PState) :
    afterExtract w cfg cb v t rt o skip ext s
      = afterExtract w cfg cb2 v t rt o skip ext s := by
  rcases ha : analyzeFrames w cfg cb s ext.manifestPath rt with ⟨ra, sa⟩
  have ha2 : analyzeFrames w cfg cb2 s ext.manifestPath rt = (ra, sa) := by
    rw [← analyze_cb w cfg cb cb2 s ext.manifestPath rt]
    exact ha
  cases ra with
  | error e => simp [afterExtract, ha, ha2, failedResult_eq]
  | ok ana =>
    simp only [afterExtract, ha, ha2]
    exact afterAnalysis_cb w cfg cb cb2 v t rt o skip ext ana sa

theorem runFromExtract_cb (w : World) (cfg : Config) (cb cb2 : Callback)
    (v t rt : String) (o : Option String) (skip : Bool) (s : PState) :
    runFromExtract w cfg cb v t rt o skip s
      = runFromExtract w cfg cb2 v t rt o skip s := by
  rcases hx : extractFrames w cfg cb s v with ⟨rx, sx⟩
  have hx2 : extractFrames w cfg cb2 s v = (rx, sx) := by
    rw [← extract_cb w cfg cb cb2 s v]
    exact hx
  cases rx with
  | error e => simp [runFromExtract, hx, hx2, failedResult_eq]
  | ok ext =>
    simp only [runFromExtract, hx, hx2]
    exact afterExtract_cb w cfg cb cb2 v t rt o skip ext sx

theorem runPipeline_cb (w : World) (cfg : Config) (cb cb2 : Callback)
    (v t : String) (o : Option String) (skip : Bool) (s : PState) :
    runPipeline w cfg cb v t o skip s = runPipeline w cfg cb2 v t o skip s := by
  cases skip with
  | true => exact runFromExtract_cb w cfg cb cb2 v t t o true s
  | false =>
    rcases href : refineTaskDescription w cb s t with ⟨rt, s2⟩
    have href2 : refineTaskDescription w cb2 s t = (rt, s2) := by
      rw [← refine_cb w cb cb2 s t]
      exact href
    simp only [runPipeline, href, href2, Bool.false_eq_true, if_false, reduceIte]
    exact runFromExtract_cb w cfg cb cb2 v t rt o false s2

/-! ## Concrete runs used by counterexamples and witnesses -/

/-- A fully successful run: every external interaction behaves. -/
def wSuccess : World :=
  { sessionId := "abc1"
    refineOutcome := Except.ok " refined task "
    extractRun := ProcRun.exit 0 ["done"] ""
    manifestOnDisk := some { saved_count := 3 }
    analyzeRun := ProcRun.exit 0 ["log line", "work/detections.json"] ""
    detectionsOnDisk := some { frame_detections := [{ people_detected := 2 }] }
    annotateRun := AnnRun.exit 0 ["work/v_annotated.mp4"]
      [AnnLine.other "note", AnnLine.progress 50 1 2]
    annotatedExists := true
    ffmpegRun := FfmpegRun.exit 0 true }

/-- The extractor exits 1 with captured stderr. -/
def wExtractFail : World :=
  { wSuccess with extractRun := ProcRun.exit 1 [] "boom stderr" }

/-- The analyzer runs but the detections file never appears. -/
def wAnalyzeFail : World :=
  { wSuccess with detectionsOnDisk := none }

/-- The refinement provider throws. -/
def wRefineErr : World :=
  { wSuccess with refineOutcome := Except.error (mkError "quota exceeded") }

/-- The annotator exits 2 with captured stderr. -/
def wAnnotFail : World :=
  { wSuccess with annotateRun := AnnRun.exit 2 [] [AnnLine.other "cv2 crash"] }

/-- ffmpeg is not installed. -/
def wFfmpegFail : World :=
  { wSuccess with ffmpegRun := FfmpegRun.spawnErr true "spawn ffmpeg ENOENT" }

def cfgSkipAnn : Config := { skipAnnotationFlag := true }

/-! ## The claims -/

/-- C1, counterexample to the claim as stated: a run whose extraction
stage throws produces a `PipelineResult` with `success:false` and an
error message — but the stack is NOT on the result (it only appears in
the `failed` status event); the claimed `PipelineResult{..., stack}` is
refuted at this concrete input. -/
theorem C1_counterexample :
    (processVideo wExtractFail ({} : Config) cbOk "v.mp4" "find people" none false).1.success = false
    ∧ (processVideo wExtractFail ({} : Config) cbOk "v.mp4" "find people" none false).1.error.isSome = true
    ∧ (processVideo wExtractFail ({} : Config) cbOk "v.mp4" "find people" none false).1.stack = none := by
  decide

/-- C1 (amended): `processVideo` is total (it returns a `PipelineResult`
for every oracle); on a successful run no `failed` event is emitted; on a
failed run the error is caught exactly once — the run emits exactly one
`failed` event, it is the last event, it carries stage -1 with the error
message and stack in its details, and the returned result has
`success:false` with the error message but no stack field. -/
theorem C1_catch_once (w : World) (cfg : Config) (cb : Callback)
    (v t : String) (o : Option String) (skip : Bool) :
    ((processVideo w cfg cb v t o skip).1.success = true →
        failedEvents (processVideo w cfg cb v t o skip).2 = [])
    ∧ ((processVideo w cfg cb v t o skip).1.success = false →
        (processVideo w cfg cb v t o skip).1.error ≠ none
        ∧ (processVideo w cfg cb v t o skip).1.stack = none
        ∧ ∃ e : JsError,
            (processVideo w cfg cb v t o skip).1.error = some e.message
            ∧ failedEvents (processVideo w cfg cb v t o skip).2 = [failedEventOf e]
            ∧ (processVideo w cfg cb v t o skip).2.events.getLast? = some (failedEventOf e)) := by
  obtain ⟨-, -, hforms⟩ := processVideo_spec w cfg cb v t o skip
  rcases hforms with ⟨e, h1, Epre, h2, h3⟩ | ⟨rt, ana, man, hres, -, hnf, -, -, -⟩
  · have hsucc : (processVideo w cfg cb v t o skip).1.success = false := by
      rw [h1]; rfl
    constructor
    · intro h
      rw [hsucc] at h
      exact absurd h (by simp)
    · intro _
      have hfe : failedEvents (processVideo w cfg cb v t o skip).2 = [failedEventOf e] := by
        unfold failedEvents
        rw [h2, List.filter_append]
        have hpre : Epre.filter (fun ev => decide (ev.status = "failed")) = [] := by
          rw [List.filter_eq_nil_iff]
          intro ev hev
          simpa using h3 ev hev
        rw [hpre]
        simp [failedEventOf]
      refine ⟨by rw [h1]; simp [failResultOf], by rw [h1]; rfl, e, by rw [h1]; rfl, hfe, ?_⟩
      rw [h2, List.getLast?_concat]
  · have hsucc : (processVideo w cfg cb v t o skip).1.success = true := by
      rw [hres]; rfl
    constructor
    · intro _
      unfold failedEvents
      rw [List.filter_eq_nil_iff]
      intro ev hev
      simpa using hnf ev hev
    · intro h
      rw [hsucc] at h
      exact absurd h (by simp)

/-- C1 witness: at the concrete failing run the hypotheses of
`C1_catch_once` are satisfiable and yield the amended conclusions. -/
theorem C1_catch_once_witness :
    (processVideo wExtractFail ({} : Config) cbOk "v.mp4" "find people" none false).1.error.isSome = true
    ∧ (processVideo wExtractFail ({} : Config) cbOk "v.mp4" "find people" none false).1.stack = none := by
  have h := (C1_catch_once wExtractFail ({} : Config) cbOk "v.mp4" "find people" none false).2 (by decide)
  exact ⟨Option.isSome_iff_ne_none.mpr h.1, h.2.1⟩

/-- C2: with `skipRefinement = true` the refinement provider is never
invoked, and whenever the result carries a `refinedTask` it is the
original task description verbatim. -/
theorem C2_skip_refinement (w : World) (cfg : Config) (cb : Callback)
    (v t : String) (o : Option String) :
    (processVideo w cfg cb v t o true).2.refineCalls = 0
    ∧ ∀ x, (processVideo w cfg cb v t o true).1.refinedTask = some x → x = t := by
  obtain ⟨hrc, -, hforms⟩ := processVideo_spec w cfg cb v t o true
  refine ⟨by simpa using hrc, ?_⟩
  rcases hforms with ⟨e, h1, -⟩ | ⟨rt, ana, man, hres, hrt, -⟩
  · intro x hx
    rw [h1] at hx
    simp [failResultOf] at hx
  · intro x hx
    rw [hres] at hx
    simp only [successResult, Option.some.injEq] at hx
    rw [← hx, hrt rfl]

/-- C2 witness. -/
theorem C2_skip_refinement_witness :
    (processVideo wSuccess ({} : Config) cbOk "v.mp4" "find people" none true).2.refineCalls = 0
    ∧ "find people" = "find people" := by
  have h := C2_skip_refinement wSuccess ({} : Config) cbOk "v.mp4" "find people" none
  exact ⟨h.1, h.2 "find people" (by decide)⟩

/-- C3: when the refinement provider throws, `refineTaskDescription`
returns the original instruction unchanged, any `refinedTask` the result
carries equals the original task, and the pipeline still reaches the
extraction stage (an `extracting_frames` stage-1 event is emitted). -/
theorem C3_refine_fallback (w : World) (cfg : Config) (cb : Callback)
    (v t : String) (o : Option String) (s : PState) (e : JsError)
    (h : w.refineOutcome = Except.error e) :
    (refineTaskDescription w cb s t).1 = t
    ∧ (∀ x, (processVideo w cfg cb v t o false).1.refinedTask = some x → x = t)
    ∧ (∃ ev ∈ (processVideo w cfg cb v t o false).2.events,
        ev.status = "extracting_frames" ∧ ev.stage = 1) := by
  have hfirst : ∀ s2 : PState, (refineTaskDescription w cb s2 t).1 = t := by
    intro s2
    simp [refineTaskDescription, h, updateStatus_eq]
  rw [processVideo_eq_runPipeline]
  rcases href : refineTaskDescription w cb initState t with ⟨rt, s2⟩
  have hrt : rt = t := by
    have := hfirst initState
    rw [href] at this
    exact this
  have hstep : runPipeline w cfg cb v t o false initState
      = runFromExtract w cfg cb v t rt o false s2 := by
    simp [runPipeline, href]
  rw [hstep]
  refine ⟨hfirst s, ?_, ?_⟩
  · obtain ⟨-, -, hforms⟩ := runFromExtract_spec w cfg cb v t rt o false s2
    rcases hforms with ⟨e2, h1, -⟩ | ⟨ana, man, hres, -⟩
    · intro x hx
      rw [h1] at hx
      simp [failResultOf] at hx
    · intro x hx
      rw [hres] at hx
      simp only [successResult, Option.some.injEq] at hx
      rw [← hx, hrt]
  · rcases hx : extractFrames w cfg cb s2 v with ⟨rx, sx⟩
    obtain ⟨ev, hev, hst, hsg⟩ := extract_start_event w cfg cb s2 v
    rw [hx] at hev
    simp only at hev
    refine ⟨ev, ?_, hst, hsg⟩
    cases rx with
    | error e2 =>
      simp only [runFromExtract, hx, failedResult_eq]
      simp only [List.mem_append]
      exact .inl hev
    | ok ext =>
      have hstep2 : runFromExtract w cfg cb v t rt o false s2
          = afterExtract w cfg cb v t rt o false ext sx := by
        simp [runFromExtract, hx]
      rw [hstep2]
      obtain ⟨-, -, hforms2⟩ := afterExtract_spec w cfg cb v t rt o false ext sx
      rcases hforms2 with ⟨e2, -, Epre, h2, -⟩ | ⟨ana, -, ⟨Tail, hTev, -⟩, -⟩
      · rw [h2, List.mem_append]
        exact .inl hev
      · rw [hTev, List.mem_append]
        exact .inl hev

/-- C3 witness. -/
theorem C3_refine_fallback_witness :
    (refineTaskDescription wRefineErr cbOk ({} : PState) "find people").1 = "find people" := by
  have h := C3_refine_fallback wRefineErr ({} : Config) cbOk "v.mp4" "find people" none
    ({} : PState) (mkError "quota exceeded") rfl
  exact h.1

/-- C4: for a run that reaches annotation successfully, if the transcoder
succeeds the coordinator performs the atomic swap — delete the original
annotated file, then rename the temp file into its place — while keeping
the same `annotatedVideoPath`; if the transcoder fails for any reason
(encoder missing included), the run still succeeds and
`annotatedVideoPath` still references the pre-transcode artifact, with no
unlink/rename performed at all. -/
theorem C4_transcode_swap (w : World) (cfg : Config) (cb : Callback)
    (v t : String) (o : Option String) (skip : Bool)
    (el : List String) (es : String) (m : Manifest) (al : List String)
    (as2 : String) (d : Detections) (sol : List String) (sel : List AnnLine)
    (hex : w.extractRun = ProcRun.exit 0 el es)
    (hm : w.manifestOnDisk = some m)
    (han : w.analyzeRun = ProcRun.exit 0 al as2)
    (hd : w.detectionsOnDisk = some d)
    (hskipA : cfg.skipAnnotationFlag = false)
    (hannot : w.annotateRun = AnnRun.exit 0 sol sel)
    (hexists : w.annotatedExists = true)
    (hne : annReported w ≠ "") :
    (w.ffmpegRun = FfmpegRun.exit 0 true →
      (processVideo w cfg cb v t o skip).1.success = true
      ∧ (processVideo w cfg cb v t o skip).1.annotatedVideoPath
          = some (some (annReported w))
      ∧ (processVideo w cfg cb v t o skip).2.fsOps
          = [FsOp.unlink (annReported w),
             FsOp.rename (tempPathOf (annReported w)) (annReported w)])
    ∧ (FfmpegFails w.ffmpegRun →
      (processVideo w cfg cb v t o skip).1.success = true
      ∧ (processVideo w cfg cb v t o skip).1.annotatedVideoPath
          = some (some (annReported w))
      ∧ (processVideo w cfg cb v t o skip).2.fsOps = []) := by
  have hrep : annReported w = sol.getLastD "" := by simp [annReported, hannot]
  rw [processVideo_eq_runPipeline]
  obtain ⟨rt, s2, hpipe, hops2⟩ : ∃ rt s2,
      runPipeline w cfg cb v t o skip initState
        = runFromExtract w cfg cb v t rt o skip s2
      ∧ s2.fsOps = [] := by
    cases skip with
    | true => exact ⟨t, initState, rfl, rfl⟩
    | false =>
      rcases href : refineTaskDescription w cb initState t with ⟨rt, s2⟩
      obtain ⟨R, hRst, -, -⟩ := refine_spec w cb initState t
      rw [href] at hRst
      simp only at hRst
      refine ⟨rt, s2, by simp [runPipeline, href], ?_⟩
      rw [hRst]
      rfl
  rw [hpipe]
  rcases hx : extractFrames w cfg cb s2 v with ⟨rx, sx⟩
  obtain ⟨⟨ext0, hxok⟩, hxops⟩ := extract_ok w cfg cb s2 v el es m hex hm
  rw [hx] at hxok hxops
  simp only at hxok hxops
  subst hxok
  have hstep1 : runFromExtract w cfg cb v t rt o skip s2
      = afterExtract w cfg cb v t rt o skip ext0 sx := by
    simp [runFromExtract, hx]
  rw [hstep1]
  rcases hy : analyzeFrames w cfg cb sx ext0.manifestPath rt with ⟨ry, sy⟩
  obtain ⟨⟨ana0, hyok⟩, hyops⟩ := analyze_ok w cfg cb sx ext0.manifestPath rt al as2 d han hd
  rw [hy] at hyok hyops
  simp only at hyok hyops
  subst hyok
  have hstep2 : afterExtract w cfg cb v t rt o skip ext0 sx
      = afterAnalysis w cfg cb v t rt o skip ext0 ana0 sy := by
    simp [afterExtract, hy]
  rw [hstep2]
  obtain ⟨hswap, hkeep⟩ := annotate_transcode w cfg cb sy v ana0.detectionsPath o sol sel
    hannot hexists (by rw [← hrep]; exact hne)
  rcases hz : annotateVideo w cfg cb sy v ana0.detectionsPath o with ⟨rz, sz⟩
  constructor
  · intro hf
    obtain ⟨hzok, hzops⟩ := hswap hf
    rw [hz] at hzok hzops
    simp only at hzok hzops
    subst hzok
    simp [afterAnalysis, hskipA, hz, updateStatus_eq, successResult,
      cleanup_fsOps, hzops, hyops, hxops, hops2, hrep]
  · intro hf
    obtain ⟨hzok, hzops⟩ := hkeep hf
    rw [hz] at hzok hzops
    simp only at hzok hzops
    subst hzok
    simp [afterAnalysis, hskipA, hz, updateStatus_eq, successResult,
      cleanup_fsOps, hzops, hyops, hxops, hops2, hrep]

/-- C4 witness: the swap side holds at the fully successful concrete run. -/
theorem C4_transcode_swap_witness :
    (processVideo wSuccess ({} : Config) cbOk "v.mp4" "task" none true).1.success = true
    ∧ (processVideo wSuccess ({} : Config) cbOk "v.mp4" "task" none true).2.fsOps
        = [FsOp.unlink "work/v_annotated.mp4",
           FsOp.rename "work/v_annotated_h264_temp.mp4" "work/v_annotated.mp4"] := by
  have h := (C4_transcode_swap wSuccess ({} : Config) cbOk "v.mp4" "task" none true
    ["done"] "" { saved_count := 3 } ["log line", "work/detections.json"] ""
    { frame_detections := [{ people_detected := 2 }] }
    ["work/v_annotated.mp4"] [AnnLine.other "note", AnnLine.progress 50 1 2]
    rfl rfl rfl rfl rfl rfl rfl (by decide)).1 rfl
  refine ⟨h.1, ?_⟩
  rw [h.2.2]
  decide

/-- C5: along every successful run, the stage indices delivered to the
status callback start at 0, end at 5, never decrease and never skip a
stage (each step raises the index by at most one; repeats stay within the
same stage). -/
theorem C5_stage_trace (w : World) (cfg : Config) (cb : Callback)
    (v t : String) (o : Option String) (skip : Bool)
    (h : (processVideo w cfg cb v t o skip).1.success = true) :
    (stagesOf (processVideo w cfg cb v t o skip).2).head? = some 0
    ∧ (stagesOf (processVideo w cfg cb v t o skip).2).getLast? = some 5
    ∧ List.Chain' stepOk (stagesOf (processVideo w cfg cb v t o skip).2) := by
  obtain ⟨-, -, hforms⟩ := processVideo_spec w cfg cb v t o skip
  rcases hforms with ⟨e, h1, -⟩ | ⟨rt, ana, man, hres, -, -, ⟨A, hst, hAne, hA3⟩, -, -⟩
  · rw [h1] at h
    exact absurd h (by simp [failResultOf])
  · rw [hst]
    exact chain_shape (if skip then [] else [0, 0]) A (by cases skip <;> simp) hAne hA3

/-- C5 witness. -/
theorem C5_stage_trace_witness :
    (stagesOf (processVideo wSuccess ({} : Config) cbOk "v.mp4" "task" none false).2).head? = some 0
    ∧ (stagesOf (processVideo wSuccess ({} : Config) cbOk "v.mp4" "task" none false).2).getLast? = some 5 := by
  have h := C5_stage_trace wSuccess ({} : Config) cbOk "v.mp4" "task" none false (by decide)
  exact ⟨h.1, h.2.1⟩

/-- C6: the analyzer is always invoked with the configured batch size
clamped to the hard ceiling 2: every spawn of the analyzer script carries
`min batchSize 2` (never more than 2) as its batch argument. -/
theorem C6_batch_cap (w : World) (cfg : Config) (cb : Callback)
    (v t : String) (o : Option String) (skip : Bool) :
    min cfg.batchSize 2 ≤ 2
    ∧ ∀ rec ∈ (processVideo w cfg cb v t o skip).2.spawns,
        rec.args.head? = some analyzerScript →
        ∃ mp tk, rec.args = [analyzerScript, mp, tk, toString (min cfg.batchSize 2)] := by
  obtain ⟨-, ⟨SP, hSP, hcap, -⟩, -⟩ := processVideo_spec w cfg cb v t o skip
  refine ⟨Nat.min_le_right _ _, ?_⟩
  rw [hSP]
  exact hcap

/-- C6 witness: in the concrete run with `batchSize = 4` the analyzer is
spawned with batch argument "2". -/
theorem C6_batch_cap_witness :
    (SpawnRec.mk pythonCmd
        [analyzerScript, "./work/frames_abc1/manifest.json", "task", "2"]).args.getLastD ""
      = toString (min ({} : Config).batchSize 2) := by
  obtain ⟨mp, tk, hmk⟩ := (C6_batch_cap wSuccess ({} : Config) cbOk "v.mp4" "task" none true).2
    (SpawnRec.mk pythonCmd [analyzerScript, "./work/frames_abc1/manifest.json", "task", "2"])
    (by decide) (by decide)
  rw [hmk]
  rfl

/-- C7, counterexample to the claim as stated: a run that reaches frame
extraction but fails at analysis never calls `cleanup` (the catch block
does not clean up), so with `keepIntermediateFiles = false` the session
frames directory still exists after the failed run. -/
theorem C7_counterexample :
    (processVideo wAnalyzeFail ({} : Config) cbOk "v.mp4" "task" none true).1.success = false
    ∧ ({} : Config).keepIntermediateFiles = false
    ∧ "./work/frames_abc1" ∈ (processVideo wAnalyzeFail ({} : Config) cbOk "v.mp4" "task" none true).2.fs := by
  decide

/-- C7 (amended): on every run that ends successfully, if
`keepIntermediateFiles` is false the session frames directory is removed
by cleanup, and if it is true the directory persists (provided the
transcode temp path does not collide with the directory name).  On failed
runs cleanup is not invoked — see the counterexample. -/
theorem C7_cleanup_on_success (w : World) (cfg : Config) (cb : Callback)
    (v t : String) (o : Option String) (skip : Bool)
    (h : (processVideo w cfg cb v t o skip).1.success = true) :
    (cfg.keepIntermediateFiles = false →
      (cfg.workDir ++ "/frames_" ++ w.sessionId)
        ∉ (processVideo w cfg cb v t o skip).2.fs)
    ∧ (cfg.keepIntermediateFiles = true →
        tempPathOf (annReported w) ≠ cfg.workDir ++ "/frames_" ++ w.sessionId →
        (cfg.workDir ++ "/frames_" ++ w.sessionId)
          ∈ (processVideo w cfg cb v t o skip).2.fs) := by
  obtain ⟨-, -, hforms⟩ := processVideo_spec w cfg cb v t o skip
  rcases hforms with ⟨e, h1, -⟩ | ⟨rt, ana, man, hres, -, -, -, hfs0, hfs1⟩
  · rw [h1] at h
    exact absurd h (by simp [failResultOf])
  · exact ⟨hfs0, hfs1⟩

/-- C7 witness: after the successful concrete run with
`keepIntermediateFiles = false`, the frames directory is gone. -/
theorem C7_cleanup_on_success_witness :
    ("./work/frames_abc1" ∈ (processVideo wSuccess ({} : Config) cbOk "v.mp4" "task" none true).2.fs)
      = False := by
  have h := (C7_cleanup_on_success wSuccess ({} : Config) cbOk "v.mp4" "task" none true
    (by decide)).1 rfl
  exact eq_false h

/-- C8: when the annotator process exits non-zero, the run fails: the
result has `success:false`, carries no `annotatedVideoPath` field, and
its error string contains the stderr captured from the annotator (it is
the suffix after the exit-code line). -/
theorem C8_annotator_nonzero (w : World) (cfg : Config) (cb : Callback)
    (v t : String) (o : Option String) (skip : Bool)
    (el : List String) (es : String) (m : Manifest) (al : List String)
    (as2 : String) (d : Detections) (code : Nat) (sol : List String)
    (sel : List AnnLine)
    (hex : w.extractRun = ProcRun.exit 0 el es)
    (hm : w.manifestOnDisk = some m)
    (han : w.analyzeRun = ProcRun.exit 0 al as2)
    (hd : w.detectionsOnDisk = some d)
    (hskipA : cfg.skipAnnotationFlag = false)
    (hannot : w.annotateRun = AnnRun.exit code sol sel)
    (hcode : code ≠ 0) :
    (processVideo w cfg cb v t o skip).1.success = false
    ∧ (processVideo w cfg cb v t o skip).1.annotatedVideoPath = none
    ∧ (processVideo w cfg cb v t o skip).1.error
        = some ("Annotation failed with code " ++ toString code
            ++ "\n" ++ annStderr sel) := by
  rw [processVideo_eq_runPipeline]
  obtain ⟨rt, s2, hpipe⟩ : ∃ rt s2,
      runPipeline w cfg cb v t o skip initState
        = runFromExtract w cfg cb v t rt o skip s2 := by
    cases skip with
    | true => exact ⟨t, initState, rfl⟩
    | false =>
      rcases href : refineTaskDescription w cb initState t with ⟨rt, s2⟩
      exact ⟨rt, s2, by simp [runPipeline, href]⟩
  rw [hpipe]
  rcases hx : extractFrames w cfg cb s2 v with ⟨rx, sx⟩
  obtain ⟨⟨ext0, hxok⟩, -⟩ := extract_ok w cfg cb s2 v el es m hex hm
  rw [hx] at hxok
  simp only at hxok
  subst hxok
  have hstep1 : runFromExtract w cfg cb v t rt o skip s2
      = afterExtract w cfg cb v t rt o skip ext0 sx := by
    simp [runFromExtract, hx]
  rw [hstep1]
  rcases hy : analyzeFrames w cfg cb sx ext0.manifestPath rt with ⟨ry, sy⟩
  obtain ⟨⟨ana0, hyok⟩, -⟩ := analyze_ok w cfg cb sx ext0.manifestPath rt al as2 d han hd
  rw [hy] at hyok
  simp only at hyok
  subst hyok
  have hstep2 : afterExtract w cfg cb v t rt o skip ext0 sx
      = afterAnalysis w cfg cb v t rt o skip ext0 ana0 sy := by
    simp [afterExtract, hy]
  rw [hstep2]
  have hzerr := annotate_nonzero w cfg cb sy v ana0.detectionsPath o code sol sel hannot hcode
  rcases hz : annotateVideo w cfg cb sy v ana0.detectionsPath o with ⟨rz, sz⟩
  rw [hz] at hzerr
  simp only at hzerr
  subst hzerr
  simp [afterAnalysis, hskipA, hz, failedResult_eq, failResultOf, mkError]

/-- C8 witness. -/
theorem C8_annotator_nonzero_witness :
    (processVideo wAnnotFail ({} : Config) cbOk "v.mp4" "task" none true).1.success = false
    ∧ (processVideo wAnnotFail ({} : Config) cbOk "v.mp4" "task" none true).1.annotatedVideoPath = none
    ∧ (processVideo wAnnotFail ({} : Config) cbOk "v.mp4" "task" none true).1.error
        = some ("Annotation failed with code 2\ncv2 crash") := by
  have h := C8_annotator_nonzero wAnnotFail ({} : Config) cbOk "v.mp4" "task" none true
    ["done"] "" { saved_count := 3 } ["log line", "work/detections.json"] ""
    { frame_detections := [{ people_detected := 2 }] } 2 []
    [AnnLine.other "cv2 crash"] rfl rfl rfl rfl rfl rfl (by decide)
  refine ⟨h.1, h.2.1, ?_⟩
  rw [h.2.2]
  rfl

/-- C9: with annotation disabled, a run whose extraction and analysis
succeed spawns no annotator process, records the video annotation stage
as `skipped`, returns `annotatedVideoPath = null`, and still succeeds. -/
theorem C9_skip_annotation_stage (w : World) (cfg : Config) (cb : Callback)
    (v t : String) (o : Option String) (skip : Bool)
    (el : List String) (es : String) (m : Manifest) (al : List String)
    (as2 : String) (d : Detections)
    (hex : w.extractRun = ProcRun.exit 0 el es)
    (hm : w.manifestOnDisk = some m)
    (han : w.analyzeRun = ProcRun.exit 0 al as2)
    (hd : w.detectionsOnDisk = some d)
    (hskipA : cfg.skipAnnotationFlag = true) :
    (processVideo w cfg cb v t o skip).1.success = true
    ∧ (processVideo w cfg cb v t o skip).1.annotatedVideoPath = some none
    ∧ (processVideo w cfg cb v t o skip).1.processingStages
        = some { refinement := if skip then "skipped" else "completed"
                 frameExtraction := "completed"
                 frameAnalysis := "completed"
                 videoAnnotationMark := "skipped"
                 cleanupMark := "completed" }
    ∧ ∀ rec ∈ (processVideo w cfg cb v t o skip).2.spawns,
        rec.args.head? ≠ some annotatorScript := by
  obtain ⟨-, ⟨SP, hSP, -, hskipc⟩, -⟩ := processVideo_spec w cfg cb v t o skip
  have hnospawn : ∀ rec ∈ (processVideo w cfg cb v t o skip).2.spawns,
      rec.args.head? ≠ some annotatorScript := by
    rw [hSP]
    exact hskipc hskipA
  rw [processVideo_eq_runPipeline] at hnospawn ⊢
  obtain ⟨rt, s2, hpipe⟩ : ∃ rt s2,
      runPipeline w cfg cb v t o skip initState
        = runFromExtract w cfg cb v t rt o skip s2 := by
    cases skip with
    | true => exact ⟨t, initState, rfl⟩
    | false =>
      rcases href : refineTaskDescription w cb initState t with ⟨rt, s2⟩
      exact ⟨rt, s2, by simp [runPipeline, href]⟩
  rw [hpipe] at hnospawn ⊢
  rcases hx : extractFrames w cfg cb s2 v with ⟨rx, sx⟩
  obtain ⟨⟨ext0, hxok⟩, -⟩ := extract_ok w cfg cb s2 v el es m hex hm
  rw [hx] at hxok
  simp only at hxok
  subst hxok
  have hstep1 : runFromExtract w cfg cb v t rt o skip s2
      = afterExtract w cfg cb v t rt o skip ext0 sx := by
    simp [runFromExtract, hx]
  rw [hstep1] at hnospawn ⊢
  rcases hy : analyzeFrames w cfg cb sx ext0.manifestPath rt with ⟨ry, sy⟩
  obtain ⟨⟨ana0, hyok⟩, -⟩ := analyze_ok w cfg cb sx ext0.manifestPath rt al as2 d han hd
  rw [hy] at hyok
  simp only at hyok
  subst hyok
  have hstep2 : afterExtract w cfg cb v t rt o skip ext0 sx
      = afterAnalysis w cfg cb v t rt o skip ext0 ana0 sy := by
    simp [afterExtract, hy]
  rw [hstep2] at hnospawn ⊢
  refine ⟨?_, ?_, ?_, hnospawn⟩ <;>
    simp [afterAnalysis, hskipA, updateStatus_eq, successResult]

/-- C9 witness. -/
theorem C9_skip_annotation_stage_witness :
    (processVideo wSuccess cfgSkipAnn cbOk "v.mp4" "task" none true).1.success = true
    ∧ (processVideo wSuccess cfgSkipAnn cbOk "v.mp4" "task" none true).1.annotatedVideoPath
        = some none := by
  have h := C9_skip_annotation_stage wSuccess cfgSkipAnn cbOk "v.mp4" "task" none true
    ["done"] "" { saved_count := 3 } ["log line", "work/detections.json"] ""
    { frame_detections := [{ people_detected := 2 }] } rfl rfl rfl rfl rfl
  exact ⟨h.1, h.2.1⟩

/-- C10: the behaviour of `processVideo` — its result and everything
observable in the run state, the delivered events included — does not
depend on the status callback at all, because `updateStatus` catches any
exception the callback throws.  In particular a callback that throws on
every invocation yields exactly the same `PipelineResult` as one that
never throws. -/
theorem C10_callback_immune (w : World) (cfg : Config) (cb cb2 : Callback)
    (v t : String) (o : Option String) (skip : Bool) :
    processVideo w cfg cb v t o skip = processVideo w cfg cb2 v t o skip := by
  rw [processVideo_eq_runPipeline, processVideo_eq_runPipeline]
  exact runPipeline_cb w cfg cb cb2 v t o skip initState

end VideoProc
